import Mathlib

/-!
# LabyrinthVirtualMachine: the register-based bytecode interpreter of `src/main.c`

A shallow embedding of `lab_vm_init`, `lab_vm_eval_op`, `lab_vm_run`,
`lab_vm_load_instructions` and `lab_vm_unload_instructions`.

Platform assumptions (LP64, as the specification's 64-bit words presuppose):
* `size_t` is an unsigned 64-bit integer, `sizeof(size_t) = 8`;
* an `enum` whose enumerators are small and non-negative has a 32-bit unsigned
  underlying type, so the conversion `(lab_vm_op_e_t)opcode` keeps the low 32 bits.

The register file (`vm->stack`) is a byte vector of `32 * sizeof(size_t)` bytes that
the interpreter only ever accesses through `size_t*`; it is represented by its words,
and a byte offset designates the word `offset / 8`.  `lab_vec_at` only forms a pointer;
what C leaves undefined (dereferencing a pointer outside a vector or a misaligned word
pointer, dividing by zero) is an explicit `Undefined` outcome, distinct from both
`true` and `false` returns, that arises where the code dereferences or divides.
-/

namespace LabVM

/-! ## Machine words -/

/-- The value of `sizeof(size_t)`. -/
abbrev WORD_SIZE : Nat := 8

/-- The number of values of a `size_t`, 2^64. -/
abbrev WORD_MOD : Nat := 18446744073709551616

/-- The number of values of the type underlying `lab_vm_op_e_t`, 2^32: an enumeration
without negative enumerators is an `unsigned int` for GCC and Clang (an `int` for
MSVC), and converting a wider unsigned value to it keeps the low 32 bits. -/
abbrev ENUM_MOD : Nat := 4294967296

/-- Unsigned addition of two `size_t`. -/
def word_add (a b : Nat) : Nat := (a + b) % WORD_MOD

/-- Unsigned subtraction of two `size_t`: the mathematical difference reduced modulo 2^64. -/
def word_sub (a b : Nat) : Nat := Int.toNat (((a : Int) - (b : Int)) % (WORD_MOD : Int))

/-- Unsigned multiplication of two `size_t`. -/
def word_mul (a b : Nat) : Nat := (a * b) % WORD_MOD

/-! ## `lab_vm_registers_e_t` -/

abbrev LAB_VM_REG_ZERO : Nat := 0
abbrev LAB_VM_REG_RA : Nat := 1
abbrev LAB_VM_REG_SP : Nat := 2
abbrev LAB_VM_REG_GP : Nat := 3
abbrev LAB_VM_REG_TP : Nat := 4
abbrev LAB_VM_REG_T0 : Nat := 5
abbrev LAB_VM_REG_T1 : Nat := 6
abbrev LAB_VM_REG_T2 : Nat := 7
abbrev LAB_VM_REG_FP : Nat := 8
abbrev LAB_VM_REG_S0 : Nat := LAB_VM_REG_FP
abbrev LAB_VM_REG_S1 : Nat := 9
abbrev LAB_VM_REG_A0 : Nat := 10
abbrev LAB_VM_REG_A1 : Nat := 11
abbrev LAB_VM_REG_A2 : Nat := 12
abbrev LAB_VM_REG_A3 : Nat := 13
abbrev LAB_VM_REG_A4 : Nat := 14
abbrev LAB_VM_REG_A5 : Nat := 15
abbrev LAB_VM_REG_A6 : Nat := 16
abbrev LAB_VM_REG_A7 : Nat := 17
abbrev LAB_VM_REG_S2 : Nat := 18
abbrev LAB_VM_REG_S3 : Nat := 19
abbrev LAB_VM_REG_S4 : Nat := 20
abbrev LAB_VM_REG_S5 : Nat := 21
abbrev LAB_VM_REG_S6 : Nat := 22
abbrev LAB_VM_REG_S7 : Nat := 23
abbrev LAB_VM_REG_S8 : Nat := 24
abbrev LAB_VM_REG_S9 : Nat := 25
abbrev LAB_VM_REG_S10 : Nat := 26
abbrev LAB_VM_REG_S11 : Nat := 27
abbrev LAB_VM_REG_T3 : Nat := 28
abbrev LAB_VM_REG_T4 : Nat := 29
abbrev LAB_VM_REG_T5 : Nat := 30
abbrev LAB_VM_REG_T6 : Nat := 31

/-! ## `lab_vm_op_e_t` -/

abbrev LAB_VM_OP_ADD : Nat := 0
abbrev LAB_VM_OP_ADDI : Nat := 1
abbrev LAB_VM_OP_SUB : Nat := 2
abbrev LAB_VM_OP_MUL : Nat := 3
abbrev LAB_VM_OP_DIV : Nat := 4
abbrev LAB_VM_OP_REM : Nat := 5
abbrev LAB_VM_OP_JAL : Nat := 6
abbrev LAB_VM_OP_BEQ : Nat := 7
abbrev LAB_VM_OP_BNE : Nat := 8
abbrev LAB_VM_OP_BLT : Nat := 9
abbrev LAB_VM_OP_BGE : Nat := 10

/-! ## State -/

/-- The struct `lab_vm_t`: `stack` holds the words of the register file,
`instructions` the words of the instruction stream, `ip` the instruction pointer. -/
structure lab_vm_t where
  stack : List Nat
  instructions : List Nat
  ip : Nat
deriving DecidableEq, Repr

/-- What the C semantics leaves undefined in this program. -/
inductive Undefined where
  | outOfRange
  | misaligned
  | divisionByZero
deriving DecidableEq, Repr

/-- The states a C `lab_vm_t` with an initialised register file can be in: 32 register
words, every stored word and the instruction pointer a `size_t`, and an instruction
stream whose length is a `size_t`. -/
def lab_vm_t.WF (vm : lab_vm_t) : Prop :=
  vm.stack.length = 32 ∧ (∀ w ∈ vm.stack, w < WORD_MOD) ∧
    (∀ w ∈ vm.instructions, w < WORD_MOD) ∧ vm.instructions.length < WORD_MOD ∧
    vm.ip < WORD_MOD

/-- A register byte-offset of a 32-word register file: a multiple of the word size
below `32 * sizeof(size_t)`. -/
def valid_reg (off : Nat) : Prop := off % WORD_SIZE = 0 ∧ off < 32 * WORD_SIZE

instance (off : Nat) : Decidable (valid_reg off) := by
  unfold valid_reg; exact inferInstance

/-! ## The word store `lab/vector.h` -/

/-- Modelled from the spec: `lab_vec_size` of the register store (`size(store)`), the
number of its elements, which are bytes; the header `lab/vector.h` is not in the
source tree. -/
def lab_vec_size_stack (vm : lab_vm_t) : Nat := WORD_SIZE * vm.stack.length

/-- Modelled from the spec: `lab_vec_size` of the instruction store, the number of its
elements, which are words ("if `ip >= instruction_count`, terminate successfully");
the header `lab/vector.h` is not in the source tree. -/
def lab_vec_size_instructions (vm : lab_vm_t) : Nat := vm.instructions.length

/-- Modelled from the spec: the pointer `(size_t*)lab_vec_at(&vm->stack, off)` of
`lab/vector.h` (not in the source tree), "out-of-range access is undefined in the
reference".  The pointer is `.ok i` when it designates the register word `i`, at byte
offset `off`; it is `.error u` when it lies outside the register file or is
misaligned: such a pointer can be formed, and dereferencing it is undefined. -/
def lab_vec_at_stack (vm : lab_vm_t) (off : Nat) : Except Undefined Nat :=
  if off < lab_vec_size_stack vm then
    if off % WORD_SIZE = 0 then .ok (off / WORD_SIZE) else .error .misaligned
  else .error .outOfRange

/-- Modelled from the spec: the pointer `(size_t*)lab_vec_at(&vm->instructions, i)` of
`lab/vector.h` (not in the source tree), "out-of-range access is undefined in the
reference".  The pointer is `.ok i` when it designates the word of index `i` of the
stream; it is `.error u` when it lies outside the stream: such a pointer can be
formed, and dereferencing it is undefined. -/
def lab_vec_at_instructions (vm : lab_vm_t) (i : Nat) : Except Undefined Nat :=
  if i < lab_vec_size_instructions vm then .ok i else .error .outOfRange

/-- Reading `*p` for a pointer that designates the register word `p`. -/
def load (vm : lab_vm_t) (p : Nat) : Nat := vm.stack.getD p 0

/-- Reading `*p` for a pointer that designates the instruction word `p`. -/
def load_instruction (vm : lab_vm_t) (p : Nat) : Nat := vm.instructions.getD p 0

/-- The assignment `*p = v` for a pointer that designates the register word `p`. -/
def store (vm : lab_vm_t) (p : Nat) (v : Nat) : lab_vm_t :=
  { vm with stack := vm.stack.set p v }

/-- The register at byte offset `off`, as `*(size_t*)lab_vec_at(&vm.stack, off)` reads it
in `main`. -/
def reg (vm : lab_vm_t) (off : Nat) : Nat := load vm (off / WORD_SIZE)

/-! ## `lab_vm_eval_op` -/

/-- The pre-increment `++vm->ip` on a `size_t`. -/
def incr_ip (vm : lab_vm_t) : lab_vm_t := { vm with ip := (vm.ip + 1) % WORD_MOD }

/-- The operand expression
`(++vm->ip, *(size_t*)lab_vec_at(&vm->instructions, vm->ip))`. -/
def fetch_word (vm : lab_vm_t) : Except Undefined (Nat × lab_vm_t) :=
  let vm1 := incr_ip vm
  match lab_vec_at_instructions vm1 vm1.ip with
  | .ok p => .ok (load_instruction vm1 p, vm1)
  | .error u => .error u

/-- A register operand:
`(size_t*)lab_vec_at(&vm->stack, (++vm->ip, *(size_t*)lab_vec_at(&vm->instructions, vm->ip)))`.
The operand word is read from the instruction stream; the pointer into the register
file is only formed here, and is returned for the instruction to dereference or not. -/
def fetch_reg (vm : lab_vm_t) : Except Undefined (Except Undefined Nat × lab_vm_t) :=
  match fetch_word vm with
  | .ok (off, vm1) => .ok (lab_vec_at_stack vm1 off, vm1)
  | .error u => .error u

/-- An immediate operand:
`(++vm->ip, (size_t*)lab_vec_at(&vm->instructions, vm->ip))`.  The pointer into the
instruction stream is only formed here, and is returned for the instruction to
dereference or not. -/
def fetch_imm (vm : lab_vm_t) : Except Undefined (Except Undefined Nat × lab_vm_t) :=
  let vm1 := incr_ip vm
  .ok (lab_vec_at_instructions vm1 vm1.ip, vm1)

/-- The function `lab_vm_eval_op`.  The result is the returned `bool` with the state
the call leaves, or the undefined behaviour the call runs into.  A line `let a ← a`
is the dereference of the pointer `a`, undefined when the pointer designates no
word; in `*dest = *a op *b` the sources are read before the destination is written. -/
def lab_vm_eval_op (vm : lab_vm_t) (opcode : Nat) : Except Undefined (Bool × lab_vm_t) :=
  let op := opcode % ENUM_MOD
  if op = LAB_VM_OP_ADD then do
    let (dest, vm) ← fetch_reg vm
    let (a, vm) ← fetch_reg vm
    let (b, vm) ← fetch_reg vm
    let a ← a
    let b ← b
    let dest ← dest
    let vm := store vm dest (word_add (load vm a) (load vm b))
    pure (true, incr_ip vm)
  else if op = LAB_VM_OP_ADDI then do
    let (dest, vm) ← fetch_reg vm
    let (a, vm) ← fetch_reg vm
    let (b, vm) ← fetch_imm vm
    let a ← a
    let b ← b
    let dest ← dest
    let vm := store vm dest (word_add (load vm a) (load_instruction vm b))
    pure (true, incr_ip vm)
  else if op = LAB_VM_OP_SUB then do
    let (dest, vm) ← fetch_reg vm
    let (a, vm) ← fetch_reg vm
    let (b, vm) ← fetch_reg vm
    let a ← a
    let b ← b
    let dest ← dest
    let vm := store vm dest (word_sub (load vm a) (load vm b))
    pure (true, incr_ip vm)
  else if op = LAB_VM_OP_MUL then do
    let (dest, vm) ← fetch_reg vm
    let (a, vm) ← fetch_reg vm
    let (b, vm) ← fetch_reg vm
    let a ← a
    let b ← b
    let dest ← dest
    let vm := store vm dest (word_mul (load vm a) (load vm b))
    pure (true, incr_ip vm)
  else if op = LAB_VM_OP_DIV then do
    let (dest, vm) ← fetch_reg vm
    let (a, vm) ← fetch_reg vm
    let (b, vm) ← fetch_reg vm
    let a ← a
    let b ← b
    if load vm b = 0 then throw Undefined.divisionByZero
    let dest ← dest
    let vm := store vm dest (load vm a / load vm b)
    pure (true, incr_ip vm)
  else if op = LAB_VM_OP_REM then do
    let (dest, vm) ← fetch_reg vm
    let (a, vm) ← fetch_reg vm
    let (b, vm) ← fetch_reg vm
    let a ← a
    let b ← b
    if load vm b = 0 then throw Undefined.divisionByZero
    let dest ← dest
    let vm := store vm dest (load vm a % load vm b)
    pure (true, incr_ip vm)
  else if op = LAB_VM_OP_JAL then do
    let (_, vm) ← fetch_reg vm
    let (dest, vm) ← fetch_imm vm
    let dest ← dest
    pure (true, { vm with ip := load_instruction vm dest })
  else if op = LAB_VM_OP_BEQ then do
    let (a, vm) ← fetch_reg vm
    let (b, vm) ← fetch_reg vm
    let (dest, vm) ← fetch_imm vm
    let a ← a
    let b ← b
    if load vm a = load vm b then do
      let dest ← dest
      pure (true, { vm with ip := load_instruction vm dest })
    else
      pure (true, incr_ip vm)
  else if op = LAB_VM_OP_BNE then do
    let (a, vm) ← fetch_reg vm
    let (b, vm) ← fetch_reg vm
    let (dest, vm) ← fetch_imm vm
    let a ← a
    let b ← b
    if load vm a ≠ load vm b then do
      let dest ← dest
      pure (true, { vm with ip := load_instruction vm dest })
    else
      pure (true, incr_ip vm)
  else if op = LAB_VM_OP_BLT then do
    let (a, vm) ← fetch_reg vm
    let (b, vm) ← fetch_reg vm
    let (dest, vm) ← fetch_imm vm
    let a ← a
    let b ← b
    if load vm a < load vm b then do
      let dest ← dest
      pure (true, { vm with ip := load_instruction vm dest })
    else
      pure (true, incr_ip vm)
  else if op = LAB_VM_OP_BGE then do
    let (a, vm) ← fetch_reg vm
    let (b, vm) ← fetch_reg vm
    let (dest, vm) ← fetch_imm vm
    let a ← a
    let b ← b
    if load vm a ≥ load vm b then do
      let dest ← dest
      pure (true, { vm with ip := load_instruction vm dest })
    else
      pure (true, incr_ip vm)
  else
    pure (false, vm)

/-! ## `lab_vm_run` -/

/-- The `for` loop of `lab_vm_run`, unrolled at most `fuel` times; `none` when the
loop is still running after `fuel` iterations. -/
def lab_vm_run_loop : Nat → lab_vm_t → Option (Except Undefined (Bool × lab_vm_t))
  | 0, _ => none
  | fuel + 1, vm =>
    if vm.ip < lab_vec_size_instructions vm then
      match lab_vec_at_instructions vm vm.ip with
      | .error u => some (.error u)
      | .ok p =>
        match lab_vm_eval_op vm (load_instruction vm p) with
        | .error u => some (.error u)
        | .ok (false, vm1) => some (.ok (false, vm1))
        | .ok (true, vm1) => lab_vm_run_loop fuel vm1
    else some (.ok (true, vm))

/-- The function `lab_vm_run`: the loop started with `vm->ip = 0`. -/
def lab_vm_run (fuel : Nat) (vm : lab_vm_t) : Option (Except Undefined (Bool × lab_vm_t)) :=
  lab_vm_run_loop fuel { vm with ip := 0 }

/-! ## `lab_vm_init` -/

/-- The zero-filling loop of `lab_vm_init`, from index `i` on:
`for(; i < lab_vec_size(&vm->stack); i += sizeof(size_t)) *(size_t*)lab_vec_at(&vm->stack, i) = 0;` -/
def lab_vm_init_loop (vm : lab_vm_t) (i : Nat) : Except Undefined lab_vm_t :=
  if _h : i < lab_vec_size_stack vm then
    match lab_vec_at_stack vm i with
    | .ok p => lab_vm_init_loop (store vm p 0) (i + WORD_SIZE)
    | .error u => .error u
  else .ok vm
termination_by lab_vec_size_stack vm - i
decreasing_by
  simp only [lab_vec_size_stack, store, List.length_set, WORD_SIZE] at *
  omega

/-- Modelled from the spec: `lab_vec_init` of `lab/vector.h` (not in the source tree),
"allocates backing storage; failure signals allocation exhaustion".  `ok` says whether
the storage is obtained; the new store has the requested capacity and no content. -/
def lab_vec_init (ok : Bool) : Option (List Nat) := if ok then some [] else none

/-- Modelled from the spec: `lab_vec_push_back_arr(&vm->stack, NULL, 32 * sizeof(size_t))`
of `lab/vector.h` (not in the source tree), "appends `count` elements; if
`data_or_null` is the no-data sentinel, appended slots are uninitialized".  The 256
appended bytes are the 32 words `junk`. -/
def lab_vec_push_back_arr_null (store : List Nat) (junk : Fin 32 → Nat) : List Nat :=
  store ++ List.ofFn junk

/-- Modelled from the spec: `lab_vec_push_back_arr(&vm->instructions, data, count)` of
`lab/vector.h` (not in the source tree), "appends `count` elements", `data` being the
`count` words; the result is `none` (a `NULL` return) when the store cannot grow. -/
def lab_vec_push_back_arr (ok : Bool) (store data : List Nat) : Option (List Nat) :=
  if ok then some (store ++ data) else none

/-- Modelled from the spec: `lab_vec_resize(&vm->instructions, 0)` of `lab/vector.h` (not
in the source tree), "truncates or grows; truncating to 0 is used to unload a
program"; the result is `none` (a `false` return) when the call fails. -/
def lab_vec_resize_zero (ok : Bool) (_store : List Nat) : Option (List Nat) :=
  if ok then some [] else none

/-- The function `lab_vm_init`.  `stack_ok` and `instructions_ok` say whether the two
`lab_vec_init` calls obtain their storage, `junk` is the uninitialised content of
the 32 words that `lab_vec_push_back_arr(&vm->stack, NULL, 32 * sizeof(size_t))`
appends.  The result is `none` for a `false` return and the initialised state for
a `true` return. -/
def lab_vm_init (stack_ok instructions_ok : Bool) (junk : Fin 32 → Nat) :
    Except Undefined (Option lab_vm_t) :=
  match lab_vec_init stack_ok with
  | none => pure none
  | some stack =>
    match lab_vec_init instructions_ok with
    | none => pure none
    | some instructions => do
      let vm : lab_vm_t :=
        { stack := lab_vec_push_back_arr_null stack junk, instructions := instructions, ip := 0 }
      let vm ← lab_vm_init_loop vm 0
      pure (some { vm with ip := 0 })

/-! ## `lab_vm_load_instructions`, `lab_vm_unload_instructions` -/

/-- The function `lab_vm_load_instructions`; `instructions` are the `count` words of the
array, `ok` says whether the store can take them.  On a `NULL` return of
`lab_vec_push_back_arr` the function returns `false`. -/
def lab_vm_load_instructions (ok : Bool) (vm : lab_vm_t) (instructions : List Nat) :
    Bool × lab_vm_t :=
  match lab_vec_push_back_arr ok vm.instructions instructions with
  | some store => (true, { vm with instructions := store })
  | none => (false, vm)

/-- The function `lab_vm_unload_instructions`; `ok` says whether `lab_vec_resize`
succeeds. -/
def lab_vm_unload_instructions (ok : Bool) (vm : lab_vm_t) : Bool × lab_vm_t :=
  match lab_vec_resize_zero ok vm.instructions with
  | some store => (true, { vm with instructions := store })
  | none => (false, vm)

/-! ## The program of `main` -/

/-- The array `bytecode` of `main`, with the immediate `15` of its first instruction
replaced by `n`. -/
def bytecode (n : Nat) : List Nat :=
  [ LAB_VM_OP_ADDI, LAB_VM_REG_A0 * WORD_SIZE, LAB_VM_REG_ZERO * WORD_SIZE, n,
    LAB_VM_OP_ADDI, LAB_VM_REG_A1 * WORD_SIZE, LAB_VM_REG_A1 * WORD_SIZE, 1,
    LAB_VM_OP_BLT, LAB_VM_REG_A1 * WORD_SIZE, LAB_VM_REG_A0 * WORD_SIZE, 4 ]

/-- The state `lab_vm_init` produces: 32 zero registers, no instructions, `ip = 0`. -/
def fresh : lab_vm_t := { stack := List.replicate 32 0, instructions := [], ip := 0 }

/-- The instruction stream holds the words `ws` from position `vm.ip` on. -/
def holds_at (vm : lab_vm_t) (ws : List Nat) : Prop :=
  (vm.instructions.drop vm.ip).take ws.length = ws

instance (vm : lab_vm_t) (ws : List Nat) : Decidable (holds_at vm ws) := by
  unfold holds_at; exact inferInstance

/-! ## Sample states -/

/-- A register file with `x` in register T0 (byte offset 40), `y` in register T1
(byte offset 48) and zero elsewhere. -/
def sample_stack (x y : Nat) : List Nat :=
  ((List.replicate 32 0).set LAB_VM_REG_T0 x).set LAB_VM_REG_T1 y

/-- A state with the registers of `sample_stack x y`, the program `prog` and `ip = 0`. -/
def sample_vm (x y : Nat) (prog : List Nat) : lab_vm_t :=
  { stack := sample_stack x y, instructions := prog, ip := 0 }

/-! ## Notions used to state the properties -/

/-- The condition of the conditional jump `op` holds for the register values `x`, `y`,
compared as in `*a == *b`, `*a != *b`, `*a < *b`, `*a >= *b`. -/
def taken (op x y : Nat) : Prop :=
  (op = LAB_VM_OP_BEQ ∧ x = y) ∨ (op = LAB_VM_OP_BNE ∧ x ≠ y) ∨
    (op = LAB_VM_OP_BLT ∧ x < y) ∨ (op = LAB_VM_OP_BGE ∧ x ≥ y)

instance (op x y : Nat) : Decidable (taken op x y) := by
  unfold taken; exact inferInstance

/-- The value an arithmetic instruction `op` with source operand words `a` and `x`
assigns to its destination: the right-hand side of `*dest = ...` in the cases
ADD, ADDI, SUB, MUL, DIV, REM of `lab_vm_eval_op` (`x` is an immediate for ADDI and a
register byte-offset otherwise). -/
def arith_value (vm : lab_vm_t) (op a x : Nat) : Nat :=
  if op = LAB_VM_OP_ADD then word_add (reg vm a) (reg vm x)
  else if op = LAB_VM_OP_ADDI then word_add (reg vm a) x
  else if op = LAB_VM_OP_SUB then word_sub (reg vm a) (reg vm x)
  else if op = LAB_VM_OP_MUL then word_mul (reg vm a) (reg vm x)
  else if op = LAB_VM_OP_DIV then reg vm a / reg vm x
  else reg vm a % reg vm x

/-- The instruction at `vm.ip` transfers control to `t`: it is a JAL with target `t`, or a
conditional jump with target `t` whose condition holds for the current registers; its
register operands are valid byte-offsets. -/
def jumps_to (vm : lab_vm_t) (t : Nat) : Prop :=
  (∃ r, valid_reg r ∧ holds_at vm [LAB_VM_OP_JAL, r, t]) ∨
    (∃ op a b, valid_reg a ∧ valid_reg b ∧ holds_at vm [op, a, b, t] ∧
      taken op (reg vm a) (reg vm b))

/-- The number of operand words the case of `lab_vm_eval_op` for the opcode `op` reads
after the opcode: two for JAL, three for the other ten instructions. -/
def operand_words (op : Nat) : Nat :=
  if op % ENUM_MOD = LAB_VM_OP_JAL then 2 else 3

/-- The number of leading operand words that the case of `lab_vm_eval_op` for the opcode
`op` passes to `lab_vec_at(&vm->stack, ...)`: one for JAL, two for ADDI and the
conditional jumps, three for ADD, SUB, MUL, DIV, REM. -/
def register_operands (op : Nat) : Nat :=
  if op % ENUM_MOD = LAB_VM_OP_JAL then 1
  else if op % ENUM_MOD = LAB_VM_OP_ADDI ∨ LAB_VM_OP_BEQ ≤ op % ENUM_MOD then 2
  else 3

/-- The words `ws` are one complete instruction whose register operands are valid
byte-offsets: four words for ADD, ADDI, SUB, MUL, DIV, REM and the conditional jumps,
three words for JAL. -/
def complete_instruction (ws : List Nat) : Prop :=
  (∃ op d a b, ws = [op, d, a, b] ∧
    (op = LAB_VM_OP_ADD ∨ op = LAB_VM_OP_SUB ∨ op = LAB_VM_OP_MUL ∨ op = LAB_VM_OP_DIV ∨
      op = LAB_VM_OP_REM) ∧ valid_reg d ∧ valid_reg a ∧ valid_reg b) ∨
  (∃ d a imm, ws = [LAB_VM_OP_ADDI, d, a, imm] ∧ valid_reg d ∧ valid_reg a) ∨
  (∃ r t, ws = [LAB_VM_OP_JAL, r, t] ∧ valid_reg r) ∨
  (∃ op a b t, ws = [op, a, b, t] ∧
    (op = LAB_VM_OP_BEQ ∨ op = LAB_VM_OP_BNE ∨ op = LAB_VM_OP_BLT ∨ op = LAB_VM_OP_BGE) ∧
    valid_reg a ∧ valid_reg b)

/-- The target word of the instruction `ws` when it is a JAL or a conditional jump. -/
def jump_target (ws : List Nat) : Option Nat :=
  match ws with
  | [op, _, t] => if op = LAB_VM_OP_JAL then some t else none
  | [op, _, _, t] => if LAB_VM_OP_BEQ ≤ op ∧ op ≤ LAB_VM_OP_BGE then some t else none
  | _ => none

/-- The index, in the concatenation of the instructions `is`, of the first word of
instruction number `j`; for `j = is.length` it is the length of the program. -/
def start_index (is : List (List Nat)) (j : Nat) : Nat := (is.take j).flatten.length

/-- The program `is.flatten` is well formed: it is a concatenation of complete
instructions, and the target of every JAL and conditional jump is the start index of an
instruction or the length of the program. -/
def well_formed_program (is : List (List Nat)) : Prop :=
  (∀ ws ∈ is, complete_instruction ws) ∧
    ∀ ws ∈ is, ∀ t, jump_target ws = some t → ∃ j, j ≤ is.length ∧ t = start_index is j

/-- The state in which the loop of `lab_vm_run`, started in `vm`, is after `k` iterations
that each executed an instruction returning `true`; `none` when the loop has ended,
returned `false` or run into undefined behaviour before. -/
def run_state : Nat → lab_vm_t → Option lab_vm_t
  | 0, vm => some vm
  | k + 1, vm =>
    if vm.ip < lab_vec_size_instructions vm then
      match lab_vec_at_instructions vm vm.ip with
      | .error _ => none
      | .ok p =>
        match lab_vm_eval_op vm (load_instruction vm p) with
        | .ok (true, vm1) => run_state k vm1
        | _ => none
    else none

/-- The program of `main`, instruction by instruction; its concatenation is
`bytecode 15`. -/
def main_instructions : List (List Nat) :=
  [ [LAB_VM_OP_ADDI, LAB_VM_REG_A0 * WORD_SIZE, LAB_VM_REG_ZERO * WORD_SIZE, 15],
    [LAB_VM_OP_ADDI, LAB_VM_REG_A1 * WORD_SIZE, LAB_VM_REG_A1 * WORD_SIZE, 1],
    [LAB_VM_OP_BLT, LAB_VM_REG_A1 * WORD_SIZE, LAB_VM_REG_A0 * WORD_SIZE, 4] ]

/-- The state of the run of the program of `main` on fresh registers after its first
three instructions: 15 in A0, 1 in A1, and `ip` back at word 4. -/
def main_after_three : lab_vm_t :=
  { stack := (fresh.stack.set LAB_VM_REG_A0 15).set LAB_VM_REG_A1 1,
    instructions := main_instructions.flatten, ip := 4 }

/-- The number of leading operand words whose pointer into the register file the case
of `lab_vm_eval_op` for the opcode `op` dereferences: none for JAL, which only forms
the pointer, and all the register operands for the other instructions. -/
def dereferenced_registers (op : Nat) : Nat :=
  if op % ENUM_MOD = LAB_VM_OP_JAL then 0 else register_operands op

/-! ## Basic facts about operand decoding -/

theorem holds_at_get {vm : lab_vm_t} {ws : List Nat} (h : holds_at vm ws) (k : Nat)
    (hk : k < ws.length) : vm.instructions[vm.ip + k]? = ws[k]? := by
  have h2 := congrArg (fun l => l[k]?) h
  simp only [List.getElem?_take, List.getElem?_drop, hk, if_true] at h2
  exact h2

theorem holds_at_bound {vm : lab_vm_t} {ws : List Nat} (h : holds_at vm ws) (k : Nat)
    (hk : k < ws.length) : vm.ip + k < vm.instructions.length := by
  have h2 := holds_at_get h k hk
  rw [List.getElem?_eq_getElem hk] at h2
  by_contra hc
  rw [List.getElem?_eq_none (by omega)] at h2
  exact Option.noConfusion h2

theorem fetch_word_eq (vm : lab_vm_t) (w : Nat) (hlen : vm.instructions.length < WORD_MOD)
    (h : vm.instructions[vm.ip + 1]? = some w) :
    fetch_word vm = .ok (w, { vm with ip := vm.ip + 1 }) := by
  have hb : vm.ip + 1 < vm.instructions.length := by
    by_contra hc
    rw [List.getElem?_eq_none (by omega)] at h
    exact Option.noConfusion h
  have hm : (vm.ip + 1) % WORD_MOD = vm.ip + 1 := Nat.mod_eq_of_lt (by omega)
  simp [fetch_word, incr_ip, lab_vec_at_instructions, lab_vec_size_instructions, load_instruction, hm, hb,
    List.getD_eq_getElem?_getD, h]

theorem fetch_imm_eq (vm : lab_vm_t) (w : Nat) (hlen : vm.instructions.length < WORD_MOD)
    (h : vm.instructions[vm.ip + 1]? = some w) :
    fetch_imm vm = .ok (.ok (vm.ip + 1), { vm with ip := vm.ip + 1 }) := by
  have hb : vm.ip + 1 < vm.instructions.length := by
    by_contra hc
    rw [List.getElem?_eq_none (by omega)] at h
    exact Option.noConfusion h
  have hm : (vm.ip + 1) % WORD_MOD = vm.ip + 1 := Nat.mod_eq_of_lt (by omega)
  simp [fetch_imm, incr_ip, lab_vec_at_instructions, lab_vec_size_instructions, hm, hb]

theorem fetch_reg_eq (vm : lab_vm_t) (off : Nat) (hlen : vm.instructions.length < WORD_MOD)
    (hs : vm.stack.length = 32) (h : vm.instructions[vm.ip + 1]? = some off)
    (hv : valid_reg off) :
    fetch_reg vm = .ok (.ok (off / WORD_SIZE), { vm with ip := vm.ip + 1 }) := by
  obtain ⟨hv1, hv2⟩ := hv
  have hv3 : off < 8 * 32 := hv2
  simp [fetch_reg, fetch_word_eq vm off hlen h, lab_vec_at_stack, lab_vec_size_stack, hs, hv1, hv3]

/-- Decoding three register operands `d`, `a`, `b` that follow the opcode. -/
theorem fetch_reg3 (vm : lab_vm_t) (w d a b : Nat) (hs : vm.stack.length = 32)
    (hlen : vm.instructions.length < WORD_MOD)
    (h : holds_at vm [w, d, a, b]) (hd : valid_reg d) (ha : valid_reg a) (hb : valid_reg b) :
    fetch_reg vm = .ok (.ok (d / WORD_SIZE), { vm with ip := vm.ip + 1 }) ∧
    fetch_reg { vm with ip := vm.ip + 1 } =
      .ok (.ok (a / WORD_SIZE), { vm with ip := vm.ip + 2 }) ∧
    fetch_reg { vm with ip := vm.ip + 2 } =
      .ok (.ok (b / WORD_SIZE), { vm with ip := vm.ip + 3 }) ∧
    (vm.ip + 3 + 1) % WORD_MOD = vm.ip + 4 := by
  have h1 := holds_at_get h 1 (by simp)
  have h2 := holds_at_get h 2 (by simp)
  have h3 := holds_at_get h 3 (by simp)
  have hb3 := holds_at_bound h 3 (by simp)
  simp at h1 h2 h3
  refine ⟨fetch_reg_eq vm d hlen hs h1 hd, ?_, ?_, ?_⟩
  · exact fetch_reg_eq { vm with ip := vm.ip + 1 } a hlen hs h2 ha
  · exact fetch_reg_eq { vm with ip := vm.ip + 2 } b hlen hs h3 hb
  · exact Nat.mod_eq_of_lt (by omega)

theorem eval_ADD (vm : lab_vm_t) (op w d a b : Nat) (hs : vm.stack.length = 32)
    (hlen : vm.instructions.length < WORD_MOD)
    (hop : op % ENUM_MOD = LAB_VM_OP_ADD)
    (h : holds_at vm [w, d, a, b]) (hd : valid_reg d) (ha : valid_reg a) (hb : valid_reg b) :
    lab_vm_eval_op vm op = .ok (true,
      { stack := vm.stack.set (d / WORD_SIZE) (word_add (reg vm a) (reg vm b)),
        instructions := vm.instructions, ip := vm.ip + 4 }) := by
  obtain ⟨f1, f2, f3, f4⟩ := fetch_reg3 vm w d a b hs hlen h hd ha hb
  simp [lab_vm_eval_op, hop, f1, f2, f3, f4, bind, Except.bind, pure, Except.pure, store, load,
    incr_ip, reg]

theorem eval_SUB (vm : lab_vm_t) (op w d a b : Nat) (hs : vm.stack.length = 32)
    (hlen : vm.instructions.length < WORD_MOD)
    (hop : op % ENUM_MOD = LAB_VM_OP_SUB)
    (h : holds_at vm [w, d, a, b]) (hd : valid_reg d) (ha : valid_reg a) (hb : valid_reg b) :
    lab_vm_eval_op vm op = .ok (true,
      { stack := vm.stack.set (d / WORD_SIZE) (word_sub (reg vm a) (reg vm b)),
        instructions := vm.instructions, ip := vm.ip + 4 }) := by
  obtain ⟨f1, f2, f3, f4⟩ := fetch_reg3 vm w d a b hs hlen h hd ha hb
  simp [lab_vm_eval_op, hop, f1, f2, f3, f4, bind, Except.bind, pure, Except.pure, store, load,
    incr_ip, reg]

theorem eval_MUL (vm : lab_vm_t) (op w d a b : Nat) (hs : vm.stack.length = 32)
    (hlen : vm.instructions.length < WORD_MOD)
    (hop : op % ENUM_MOD = LAB_VM_OP_MUL)
    (h : holds_at vm [w, d, a, b]) (hd : valid_reg d) (ha : valid_reg a) (hb : valid_reg b) :
    lab_vm_eval_op vm op = .ok (true,
      { stack := vm.stack.set (d / WORD_SIZE) (word_mul (reg vm a) (reg vm b)),
        instructions := vm.instructions, ip := vm.ip + 4 }) := by
  obtain ⟨f1, f2, f3, f4⟩ := fetch_reg3 vm w d a b hs hlen h hd ha hb
  simp [lab_vm_eval_op, hop, f1, f2, f3, f4, bind, Except.bind, pure, Except.pure, store, load,
    incr_ip, reg]

theorem eval_DIV (vm : lab_vm_t) (op w d a b : Nat) (hs : vm.stack.length = 32)
    (hlen : vm.instructions.length < WORD_MOD)
    (hop : op % ENUM_MOD = LAB_VM_OP_DIV)
    (h : holds_at vm [w, d, a, b]) (hd : valid_reg d) (ha : valid_reg a) (hb : valid_reg b)
    (hz : reg vm b ≠ 0) :
    lab_vm_eval_op vm op = .ok (true,
      { stack := vm.stack.set (d / WORD_SIZE) (reg vm a / reg vm b),
        instructions := vm.instructions, ip := vm.ip + 4 }) := by
  have hz2 : ¬ vm.stack[b / WORD_SIZE]?.getD 0 = 0 := by simpa [reg, load] using hz
  obtain ⟨f1, f2, f3, f4⟩ := fetch_reg3 vm w d a b hs hlen h hd ha hb
  simp [lab_vm_eval_op, hop, f1, f2, f3, f4, bind, Except.bind, pure, Except.pure, store, load,
    incr_ip, reg, hz2, throw, throwThe, MonadExceptOf.throw]

theorem eval_REM (vm : lab_vm_t) (op w d a b : Nat) (hs : vm.stack.length = 32)
    (hlen : vm.instructions.length < WORD_MOD)
    (hop : op % ENUM_MOD = LAB_VM_OP_REM)
    (h : holds_at vm [w, d, a, b]) (hd : valid_reg d) (ha : valid_reg a) (hb : valid_reg b)
    (hz : reg vm b ≠ 0) :
    lab_vm_eval_op vm op = .ok (true,
      { stack := vm.stack.set (d / WORD_SIZE) (reg vm a % reg vm b),
        instructions := vm.instructions, ip := vm.ip + 4 }) := by
  have hz2 : ¬ vm.stack[b / WORD_SIZE]?.getD 0 = 0 := by simpa [reg, load] using hz
  obtain ⟨f1, f2, f3, f4⟩ := fetch_reg3 vm w d a b hs hlen h hd ha hb
  simp [lab_vm_eval_op, hop, f1, f2, f3, f4, bind, Except.bind, pure, Except.pure, store, load,
    incr_ip, reg, hz2, throw, throwThe, MonadExceptOf.throw]

theorem eval_DIV_zero (vm : lab_vm_t) (op w d a b : Nat) (hs : vm.stack.length = 32)
    (hlen : vm.instructions.length < WORD_MOD)
    (hop : op % ENUM_MOD = LAB_VM_OP_DIV)
    (h : holds_at vm [w, d, a, b]) (hd : valid_reg d) (ha : valid_reg a) (hb : valid_reg b)
    (hz : reg vm b = 0) :
    lab_vm_eval_op vm op = .error Undefined.divisionByZero := by
  have hz2 : vm.stack[b / WORD_SIZE]?.getD 0 = 0 := by simpa [reg, load] using hz
  obtain ⟨f1, f2, f3, f4⟩ := fetch_reg3 vm w d a b hs hlen h hd ha hb
  simp [lab_vm_eval_op, hop, f1, f2, f3, f4, bind, Except.bind, pure, Except.pure, store, load,
    incr_ip, reg, hz2, throw, throwThe, MonadExceptOf.throw]

theorem eval_REM_zero (vm : lab_vm_t) (op w d a b : Nat) (hs : vm.stack.length = 32)
    (hlen : vm.instructions.length < WORD_MOD)
    (hop : op % ENUM_MOD = LAB_VM_OP_REM)
    (h : holds_at vm [w, d, a, b]) (hd : valid_reg d) (ha : valid_reg a) (hb : valid_reg b)
    (hz : reg vm b = 0) :
    lab_vm_eval_op vm op = .error Undefined.divisionByZero := by
  have hz2 : vm.stack[b / WORD_SIZE]?.getD 0 = 0 := by simpa [reg, load] using hz
  obtain ⟨f1, f2, f3, f4⟩ := fetch_reg3 vm w d a b hs hlen h hd ha hb
  simp [lab_vm_eval_op, hop, f1, f2, f3, f4, bind, Except.bind, pure, Except.pure, store, load,
    incr_ip, reg, hz2, throw, throwThe, MonadExceptOf.throw]

/-- Decoding two register operands and one immediate that follow the opcode. -/
theorem fetch_reg2_imm (vm : lab_vm_t) (w a b imm : Nat) (hs : vm.stack.length = 32)
    (hlen : vm.instructions.length < WORD_MOD)
    (h : holds_at vm [w, a, b, imm]) (ha : valid_reg a) (hb : valid_reg b) :
    fetch_reg vm = .ok (.ok (a / WORD_SIZE), { vm with ip := vm.ip + 1 }) ∧
    fetch_reg { vm with ip := vm.ip + 1 } =
      .ok (.ok (b / WORD_SIZE), { vm with ip := vm.ip + 2 }) ∧
    fetch_imm { vm with ip := vm.ip + 2 } = .ok (.ok (vm.ip + 3), { vm with ip := vm.ip + 3 }) ∧
    vm.instructions[vm.ip + 3]? = some imm ∧
    (vm.ip + 3 + 1) % WORD_MOD = vm.ip + 4 := by
  have h1 := holds_at_get h 1 (by simp)
  have h2 := holds_at_get h 2 (by simp)
  have h3 := holds_at_get h 3 (by simp)
  have hb3 := holds_at_bound h 3 (by simp)
  simp at h1 h2 h3
  refine ⟨fetch_reg_eq vm a hlen hs h1 ha, ?_, ?_, h3, ?_⟩
  · exact fetch_reg_eq { vm with ip := vm.ip + 1 } b hlen hs h2 hb
  · exact fetch_imm_eq { vm with ip := vm.ip + 2 } imm hlen h3
  · exact Nat.mod_eq_of_lt (by omega)

theorem eval_ADDI (vm : lab_vm_t) (op w d a imm : Nat) (hs : vm.stack.length = 32)
    (hlen : vm.instructions.length < WORD_MOD)
    (hop : op % ENUM_MOD = LAB_VM_OP_ADDI)
    (h : holds_at vm [w, d, a, imm]) (hd : valid_reg d) (ha : valid_reg a) :
    lab_vm_eval_op vm op = .ok (true,
      { stack := vm.stack.set (d / WORD_SIZE) (word_add (reg vm a) imm),
        instructions := vm.instructions, ip := vm.ip + 4 }) := by
  obtain ⟨f1, f2, f3, f4, f5⟩ := fetch_reg2_imm vm w d a imm hs hlen h hd ha
  simp [lab_vm_eval_op, hop, f1, f2, f3, f4, f5, bind, Except.bind, pure, Except.pure, store,
    load, load_instruction, incr_ip, reg]

theorem eval_JAL (vm : lab_vm_t) (op w r target : Nat) (hs : vm.stack.length = 32)
    (hlen : vm.instructions.length < WORD_MOD)
    (hop : op % ENUM_MOD = LAB_VM_OP_JAL)
    (h : holds_at vm [w, r, target]) (hr : valid_reg r) :
    lab_vm_eval_op vm op = .ok (true, { vm with ip := target }) := by
  have h1 := holds_at_get h 1 (by simp)
  have h2 := holds_at_get h 2 (by simp)
  simp at h1 h2
  have f1 := fetch_reg_eq vm r hlen hs h1 hr
  have f2 := fetch_imm_eq { vm with ip := vm.ip + 1 } target hlen h2
  simp [lab_vm_eval_op, hop, f1, f2, h2, bind, Except.bind, pure, Except.pure, load_instruction]

theorem eval_BEQ (vm : lab_vm_t) (op w a b target : Nat) (hs : vm.stack.length = 32)
    (hlen : vm.instructions.length < WORD_MOD)
    (hop : op % ENUM_MOD = LAB_VM_OP_BEQ)
    (h : holds_at vm [w, a, b, target]) (ha : valid_reg a) (hb : valid_reg b) :
    lab_vm_eval_op vm op = .ok (true,
      { vm with ip := if reg vm a = reg vm b then target else vm.ip + 4 }) := by
  obtain ⟨f1, f2, f3, f4, f5⟩ := fetch_reg2_imm vm w a b target hs hlen h ha hb
  by_cases hc : reg vm a = reg vm b <;>
  · have hc2 := hc
    simp only [reg, load, List.getD_eq_getElem?_getD] at hc2
    simp [lab_vm_eval_op, hop, f1, f2, f3, f4, f5, bind, Except.bind, pure, Except.pure,
      load, load_instruction, incr_ip, hc, hc2]

theorem eval_BNE (vm : lab_vm_t) (op w a b target : Nat) (hs : vm.stack.length = 32)
    (hlen : vm.instructions.length < WORD_MOD)
    (hop : op % ENUM_MOD = LAB_VM_OP_BNE)
    (h : holds_at vm [w, a, b, target]) (ha : valid_reg a) (hb : valid_reg b) :
    lab_vm_eval_op vm op = .ok (true,
      { vm with ip := if reg vm a ≠ reg vm b then target else vm.ip + 4 }) := by
  obtain ⟨f1, f2, f3, f4, f5⟩ := fetch_reg2_imm vm w a b target hs hlen h ha hb
  by_cases hc : reg vm a = reg vm b <;>
  · have hc2 := hc
    simp only [reg, load, List.getD_eq_getElem?_getD] at hc2
    simp [lab_vm_eval_op, hop, f1, f2, f3, f4, f5, bind, Except.bind, pure, Except.pure,
      load, load_instruction, incr_ip, hc, hc2]

theorem eval_BLT (vm : lab_vm_t) (op w a b target : Nat) (hs : vm.stack.length = 32)
    (hlen : vm.instructions.length < WORD_MOD)
    (hop : op % ENUM_MOD = LAB_VM_OP_BLT)
    (h : holds_at vm [w, a, b, target]) (ha : valid_reg a) (hb : valid_reg b) :
    lab_vm_eval_op vm op = .ok (true,
      { vm with ip := if reg vm a < reg vm b then target else vm.ip + 4 }) := by
  obtain ⟨f1, f2, f3, f4, f5⟩ := fetch_reg2_imm vm w a b target hs hlen h ha hb
  by_cases hc : reg vm a < reg vm b <;>
  · have hc2 := hc
    simp only [reg, load, List.getD_eq_getElem?_getD] at hc2
    simp [lab_vm_eval_op, hop, f1, f2, f3, f4, f5, bind, Except.bind, pure, Except.pure,
      load, load_instruction, incr_ip, hc, hc2]

theorem eval_BGE (vm : lab_vm_t) (op w a b target : Nat) (hs : vm.stack.length = 32)
    (hlen : vm.instructions.length < WORD_MOD)
    (hop : op % ENUM_MOD = LAB_VM_OP_BGE)
    (h : holds_at vm [w, a, b, target]) (ha : valid_reg a) (hb : valid_reg b) :
    lab_vm_eval_op vm op = .ok (true,
      { vm with ip := if reg vm a ≥ reg vm b then target else vm.ip + 4 }) := by
  obtain ⟨f1, f2, f3, f4, f5⟩ := fetch_reg2_imm vm w a b target hs hlen h ha hb
  by_cases hc : reg vm a ≥ reg vm b <;>
  · have hc2 := hc
    simp only [reg, load, List.getD_eq_getElem?_getD] at hc2
    simp [lab_vm_eval_op, hop, f1, f2, f3, f4, f5, bind, Except.bind, pure, Except.pure,
      load, load_instruction, incr_ip, hc, hc2]

/-- The `default:` label: an opcode whose conversion to `lab_vm_op_e_t` is none of the
eleven enumerators makes the call return `false` and leaves the state as it is. -/
theorem eval_default (vm : lab_vm_t) (op : Nat) (hop : 10 < op % ENUM_MOD) :
    lab_vm_eval_op vm op = .ok (false, vm) := by
  have h0 : op % ENUM_MOD ≠ 0 := by omega
  have h1 : op % ENUM_MOD ≠ 1 := by omega
  have h2 : op % ENUM_MOD ≠ 2 := by omega
  have h3 : op % ENUM_MOD ≠ 3 := by omega
  have h4 : op % ENUM_MOD ≠ 4 := by omega
  have h5 : op % ENUM_MOD ≠ 5 := by omega
  have h6 : op % ENUM_MOD ≠ 6 := by omega
  have h7 : op % ENUM_MOD ≠ 7 := by omega
  have h8 : op % ENUM_MOD ≠ 8 := by omega
  have h9 : op % ENUM_MOD ≠ 9 := by omega
  have h10 : op % ENUM_MOD ≠ 10 := by omega
  simp [lab_vm_eval_op, h0, h1, h2, h3, h4, h5, h6, h7, h8, h9, h10, pure, Except.pure]

/-! ## Register reads after a register write -/

theorem reg_set_same (vm : lab_vm_t) (d v : Nat) (hs : vm.stack.length = 32)
    (hd : valid_reg d) (ins : List Nat) (ip : Nat) :
    reg { stack := vm.stack.set (d / WORD_SIZE) v, instructions := ins, ip := ip } d = v := by
  obtain ⟨-, hd2⟩ := hd
  have hlt : d / WORD_SIZE < vm.stack.length := by
    rw [hs]; exact Nat.div_lt_of_lt_mul (by simpa [Nat.mul_comm] using hd2)
  simp [reg, load, List.getD_eq_getElem?_getD, List.getElem?_set, hlt]

theorem reg_set_other (vm : lab_vm_t) (d r v : Nat) (hd : valid_reg d) (hr : valid_reg r)
    (hne : r ≠ d) (ins : List Nat) (ip : Nat) :
    reg { stack := vm.stack.set (d / WORD_SIZE) v, instructions := ins, ip := ip } r =
      reg vm r := by
  obtain ⟨hd1, -⟩ := hd
  obtain ⟨hr1, -⟩ := hr
  have hne2 : d / WORD_SIZE ≠ r / WORD_SIZE := by
    simp only [WORD_SIZE] at *
    omega
  simp [reg, load, List.getD_eq_getElem?_getD, List.getElem?_set, hne2]

theorem word_sub_cast (a b : Nat) :
    (word_sub a b : Int) = ((a : Int) - (b : Int)) % 2 ^ 64 := by
  unfold word_sub
  rw [Int.toNat_of_nonneg (Int.emod_nonneg _ (by norm_num))]
  norm_num

theorem sample_vm_WF (x y : Nat) (prog : List Nat) (hx : x < WORD_MOD) (hy : y < WORD_MOD)
    (hp : ∀ w ∈ prog, w < WORD_MOD) (hl : prog.length < WORD_MOD) :
    (sample_vm x y prog).WF := by
  refine ⟨by simp [sample_vm, sample_stack], ?_, hp, hl, by simp [sample_vm]⟩
  intro w hw
  simp only [sample_vm, sample_stack] at hw
  rcases List.mem_or_eq_of_mem_set hw with h1 | h1
  · rcases List.mem_or_eq_of_mem_set h1 with h2 | h2
    · rw [List.eq_of_mem_replicate h2]; decide
    · rw [h2]; exact hx
  · rw [h1]; exact hy

/-! ## C1 -/

/-- C1: in a state whose instruction stream holds `[op, d, a, b]` at `ip`, with `op` one
of ADD, SUB, MUL and `d`, `a`, `b` valid register byte-offsets, `lab_vm_eval_op`
returns `true`, leaves `ip + 4` in `ip`, and leaves in register `d` the sum, difference
or product modulo 2^64 of the values registers `a` and `b` held before. -/
theorem C1_add_sub_mul_step (vm : lab_vm_t) (op d a b : Nat) (hwf : vm.WF)
    (hop : op = LAB_VM_OP_ADD ∨ op = LAB_VM_OP_SUB ∨ op = LAB_VM_OP_MUL)
    (h : holds_at vm [op, d, a, b]) (hd : valid_reg d) (ha : valid_reg a)
    (hb : valid_reg b) :
    ∃ vm1, lab_vm_eval_op vm op = .ok (true, vm1) ∧ vm1.ip = vm.ip + 4 ∧
      (op = LAB_VM_OP_ADD → reg vm1 d = (reg vm a + reg vm b) % 2 ^ 64) ∧
      (op = LAB_VM_OP_SUB →
        (reg vm1 d : Int) = ((reg vm a : Int) - (reg vm b : Int)) % 2 ^ 64) ∧
      (op = LAB_VM_OP_MUL → reg vm1 d = (reg vm a * reg vm b) % 2 ^ 64) := by
  have hs : vm.stack.length = 32 := hwf.1
  rcases hop with rfl | rfl | rfl
  · refine ⟨_, eval_ADD vm _ _ d a b hwf.1 hwf.2.2.2.1 rfl h hd ha hb, rfl, ?_, ?_, ?_⟩
    · intro _
      rw [reg_set_same vm d _ hs hd]
      rfl
    · intro hc; exact absurd hc (by decide)
    · intro hc; exact absurd hc (by decide)
  · refine ⟨_, eval_SUB vm _ _ d a b hwf.1 hwf.2.2.2.1 rfl h hd ha hb, rfl, ?_, ?_, ?_⟩
    · intro hc; exact absurd hc (by decide)
    · intro _
      rw [reg_set_same vm d _ hs hd]
      exact word_sub_cast _ _
    · intro hc; exact absurd hc (by decide)
  · refine ⟨_, eval_MUL vm _ _ d a b hwf.1 hwf.2.2.2.1 rfl h hd ha hb, rfl, ?_, ?_, ?_⟩
    · intro hc; exact absurd hc (by decide)
    · intro hc; exact absurd hc (by decide)
    · intro _
      rw [reg_set_same vm d _ hs hd]
      rfl

/-- C1 at a concrete state: `SUB T0, T0, T1` with T0 = 3 and T1 = 5 wraps around. -/
theorem C1_add_sub_mul_step_witness :
    ∃ vm1, lab_vm_eval_op (sample_vm 3 5 [2, 40, 40, 48]) 2 = .ok (true, vm1) ∧
      vm1.ip = (sample_vm 3 5 [2, 40, 40, 48]).ip + 4 ∧
      ((2 : Nat) = LAB_VM_OP_ADD → reg vm1 40 =
        (reg (sample_vm 3 5 [2, 40, 40, 48]) 40 + reg (sample_vm 3 5 [2, 40, 40, 48]) 48) % 2 ^ 64) ∧
      ((2 : Nat) = LAB_VM_OP_SUB → (reg vm1 40 : Int) =
        ((reg (sample_vm 3 5 [2, 40, 40, 48]) 40 : Int) -
          (reg (sample_vm 3 5 [2, 40, 40, 48]) 48 : Int)) % 2 ^ 64) ∧
      ((2 : Nat) = LAB_VM_OP_MUL → reg vm1 40 =
        (reg (sample_vm 3 5 [2, 40, 40, 48]) 40 * reg (sample_vm 3 5 [2, 40, 40, 48]) 48) % 2 ^ 64) :=
  C1_add_sub_mul_step (sample_vm 3 5 [2, 40, 40, 48]) 2 40 40 48
    (sample_vm_WF 3 5 _ (by decide) (by decide) (by decide) (by decide))
    (by decide) (by decide) (by decide) (by decide) (by decide)

/-! ## C2 -/

/-- C2: in a state whose instruction stream holds `[op, a, b, target]` at `ip`, with `op`
one of BEQ, BNE, BLT, BGE and `a`, `b` valid register byte-offsets, `lab_vm_eval_op`
returns `true`, changes neither the register file nor the instruction stream, and
leaves in `ip` exactly `target` when the unsigned comparison of the two registers
holds and `ip + 4` otherwise. -/
theorem C2_branch_step (vm : lab_vm_t) (op a b target : Nat) (hwf : vm.WF)
    (hop : op = LAB_VM_OP_BEQ ∨ op = LAB_VM_OP_BNE ∨ op = LAB_VM_OP_BLT ∨ op = LAB_VM_OP_BGE)
    (h : holds_at vm [op, a, b, target]) (ha : valid_reg a) (hb : valid_reg b) :
    ∃ vm1, lab_vm_eval_op vm op = .ok (true, vm1) ∧ vm1.stack = vm.stack ∧
      vm1.instructions = vm.instructions ∧
      (op = LAB_VM_OP_BEQ → vm1.ip = if reg vm a = reg vm b then target else vm.ip + 4) ∧
      (op = LAB_VM_OP_BNE → vm1.ip = if reg vm a ≠ reg vm b then target else vm.ip + 4) ∧
      (op = LAB_VM_OP_BLT → vm1.ip = if reg vm a < reg vm b then target else vm.ip + 4) ∧
      (op = LAB_VM_OP_BGE → vm1.ip = if reg vm a ≥ reg vm b then target else vm.ip + 4) := by
  rcases hop with rfl | rfl | rfl | rfl
  · refine ⟨_, eval_BEQ vm _ _ a b target hwf.1 hwf.2.2.2.1 rfl h ha hb, rfl, rfl, ?_, ?_, ?_, ?_⟩
    · intro _; rfl
    · intro hc; exact absurd hc (by decide)
    · intro hc; exact absurd hc (by decide)
    · intro hc; exact absurd hc (by decide)
  · refine ⟨_, eval_BNE vm _ _ a b target hwf.1 hwf.2.2.2.1 rfl h ha hb, rfl, rfl, ?_, ?_, ?_, ?_⟩
    · intro hc; exact absurd hc (by decide)
    · intro _; rfl
    · intro hc; exact absurd hc (by decide)
    · intro hc; exact absurd hc (by decide)
  · refine ⟨_, eval_BLT vm _ _ a b target hwf.1 hwf.2.2.2.1 rfl h ha hb, rfl, rfl, ?_, ?_, ?_, ?_⟩
    · intro hc; exact absurd hc (by decide)
    · intro hc; exact absurd hc (by decide)
    · intro _; rfl
    · intro hc; exact absurd hc (by decide)
  · refine ⟨_, eval_BGE vm _ _ a b target hwf.1 hwf.2.2.2.1 rfl h ha hb, rfl, rfl, ?_, ?_, ?_, ?_⟩
    · intro hc; exact absurd hc (by decide)
    · intro hc; exact absurd hc (by decide)
    · intro hc; exact absurd hc (by decide)
    · intro _; rfl

/-- C2 at a concrete state: `BLT T0, T1, 77` with T0 = 3 and T1 = 5 is taken. -/
theorem C2_branch_step_witness :
    ∃ vm1, lab_vm_eval_op (sample_vm 3 5 [9, 40, 48, 77]) 9 = .ok (true, vm1) ∧
      vm1.stack = (sample_vm 3 5 [9, 40, 48, 77]).stack ∧
      vm1.instructions = (sample_vm 3 5 [9, 40, 48, 77]).instructions ∧
      ((9 : Nat) = LAB_VM_OP_BEQ → vm1.ip =
        if reg (sample_vm 3 5 [9, 40, 48, 77]) 40 = reg (sample_vm 3 5 [9, 40, 48, 77]) 48
        then 77 else (sample_vm 3 5 [9, 40, 48, 77]).ip + 4) ∧
      ((9 : Nat) = LAB_VM_OP_BNE → vm1.ip =
        if reg (sample_vm 3 5 [9, 40, 48, 77]) 40 ≠ reg (sample_vm 3 5 [9, 40, 48, 77]) 48
        then 77 else (sample_vm 3 5 [9, 40, 48, 77]).ip + 4) ∧
      ((9 : Nat) = LAB_VM_OP_BLT → vm1.ip =
        if reg (sample_vm 3 5 [9, 40, 48, 77]) 40 < reg (sample_vm 3 5 [9, 40, 48, 77]) 48
        then 77 else (sample_vm 3 5 [9, 40, 48, 77]).ip + 4) ∧
      ((9 : Nat) = LAB_VM_OP_BGE → vm1.ip =
        if reg (sample_vm 3 5 [9, 40, 48, 77]) 40 ≥ reg (sample_vm 3 5 [9, 40, 48, 77]) 48
        then 77 else (sample_vm 3 5 [9, 40, 48, 77]).ip + 4) :=
  C2_branch_step (sample_vm 3 5 [9, 40, 48, 77]) 9 40 48 77
    (sample_vm_WF 3 5 _ (by decide) (by decide) (by decide) (by decide))
    (by decide) (by decide) (by decide) (by decide)

/-! ## The run loop -/

/-- One iteration of the loop of `lab_vm_run` whose instruction returns `true`. -/
theorem run_loop_step (fuel : Nat) (vm vm1 : lab_vm_t) (w : Nat)
    (hw : vm.instructions[vm.ip]? = some w)
    (hev : lab_vm_eval_op vm w = .ok (true, vm1)) :
    lab_vm_run_loop (fuel + 1) vm = lab_vm_run_loop fuel vm1 := by
  have hb : vm.ip < vm.instructions.length := by
    by_contra hc
    rw [List.getElem?_eq_none (by omega)] at hw
    exact Option.noConfusion hw
  simp [lab_vm_run_loop, lab_vec_size_instructions, lab_vec_at_instructions, hb, load_instruction,
    List.getD_eq_getElem?_getD, hw, hev]

/-- The loop of `lab_vm_run` ends with `true` once `ip` is not below the number of
instruction words. -/
theorem run_loop_exit (fuel : Nat) (vm : lab_vm_t) (h : vm.instructions.length ≤ vm.ip) :
    lab_vm_run_loop (fuel + 1) vm = some (.ok (true, vm)) := by
  have hb : ¬ vm.ip < vm.instructions.length := by omega
  simp [lab_vm_run_loop, lab_vec_size_instructions, hb]

/-- An iteration of the loop of `lab_vm_run` whose instruction returns `false` ends
the run with `false`. -/
theorem run_loop_fail (fuel : Nat) (vm vm1 : lab_vm_t) (w : Nat)
    (hw : vm.instructions[vm.ip]? = some w)
    (hev : lab_vm_eval_op vm w = .ok (false, vm1)) :
    lab_vm_run_loop (fuel + 1) vm = some (.ok (false, vm1)) := by
  have hb : vm.ip < vm.instructions.length := by
    by_contra hc
    rw [List.getElem?_eq_none (by omega)] at hw
    exact Option.noConfusion hw
  simp [lab_vm_run_loop, lab_vec_size_instructions, lab_vec_at_instructions, hb, load_instruction,
    List.getD_eq_getElem?_getD, hw, hev]

/-- An iteration of the loop of `lab_vm_run` whose instruction has undefined behaviour. -/
theorem run_loop_undefined (fuel : Nat) (vm : lab_vm_t) (w : Nat) (u : Undefined)
    (hw : vm.instructions[vm.ip]? = some w)
    (hev : lab_vm_eval_op vm w = .error u) :
    lab_vm_run_loop (fuel + 1) vm = some (.error u) := by
  have hb : vm.ip < vm.instructions.length := by
    by_contra hc
    rw [List.getElem?_eq_none (by omega)] at hw
    exact Option.noConfusion hw
  simp [lab_vm_run_loop, lab_vec_size_instructions, lab_vec_at_instructions, hb, load_instruction,
    List.getD_eq_getElem?_getD, hw, hev]

/-! ## The counting program of `main` -/

theorem bytecode_length (n : Nat) : (bytecode n).length = 12 := rfl

/-- The first instruction of the counting program, `ADDI A0, ZERO, n`. -/
theorem bytecode_step0 (n : Nat) (s : List Nat) (hs : s.length = 32) :
    lab_vm_eval_op { stack := s, instructions := bytecode n, ip := 0 } LAB_VM_OP_ADDI =
      .ok (true, { stack := s.set 10 (word_add (s.getD 0 0) n), instructions := bytecode n,
                   ip := 4 }) :=
  eval_ADDI { stack := s, instructions := bytecode n, ip := 0 } _ LAB_VM_OP_ADDI
    (LAB_VM_REG_A0 * WORD_SIZE) (LAB_VM_REG_ZERO * WORD_SIZE) n hs (by simp only [bytecode_length]; decide)
    rfl rfl (by decide) (by decide)

/-- The second instruction of the counting program, `ADDI A1, A1, 1`. -/
theorem bytecode_step4 (n : Nat) (s : List Nat) (hs : s.length = 32) :
    lab_vm_eval_op { stack := s, instructions := bytecode n, ip := 4 } LAB_VM_OP_ADDI =
      .ok (true, { stack := s.set 11 (word_add (s.getD 11 0) 1), instructions := bytecode n,
                   ip := 8 }) :=
  eval_ADDI { stack := s, instructions := bytecode n, ip := 4 } _ LAB_VM_OP_ADDI
    (LAB_VM_REG_A1 * WORD_SIZE) (LAB_VM_REG_A1 * WORD_SIZE) 1 hs (by simp only [bytecode_length]; decide)
    rfl rfl (by decide) (by decide)

/-- The third instruction of the counting program, `BLT A1, A0, 4`. -/
theorem bytecode_step8 (n : Nat) (s : List Nat) (hs : s.length = 32) :
    lab_vm_eval_op { stack := s, instructions := bytecode n, ip := 8 } LAB_VM_OP_BLT =
      .ok (true, { stack := s, instructions := bytecode n,
                   ip := if s.getD 11 0 < s.getD 10 0 then 4 else 12 }) :=
  eval_BLT { stack := s, instructions := bytecode n, ip := 8 } _ LAB_VM_OP_BLT
    (LAB_VM_REG_A1 * WORD_SIZE) (LAB_VM_REG_A0 * WORD_SIZE) 4 hs (by simp only [bytecode_length]; decide)
    rfl rfl (by decide) (by decide)

/-- The loop `ADDI A1, A1, 1; BLT A1, A0, 4` of the counting program, entered at word 4
with `n` in A0: it ends at `ip = 12` with the larger of `A1 + 1` and `n` in A1. -/
theorem bytecode_loop (n : Nat) (hn : n < WORD_MOD) :
    ∀ (m : Nat) (s : List Nat) (fuel : Nat), s.length = 32 → s.getD 10 0 = n →
      n - word_add (s.getD 11 0) 1 ≤ m → 2 * m + 3 ≤ fuel →
      lab_vm_run_loop fuel { stack := s, instructions := bytecode n, ip := 4 } =
        some (.ok (true, { stack := s.set 11 (max (word_add (s.getD 11 0) 1) n),
                           instructions := bytecode n, ip := 12 })) := by
  intro m
  induction m with
  | zero =>
    intro s fuel hs h10 hm hf
    obtain ⟨f, rfl⟩ : ∃ f, fuel = f + 3 := ⟨fuel - 3, by omega⟩
    have hs1 : (s.set 11 (word_add (s.getD 11 0) 1)).length = 32 := by simp [hs]
    have h11 : (s.set 11 (word_add (s.getD 11 0) 1)).getD 11 0 = word_add (s.getD 11 0) 1 := by
      simp [List.getD_eq_getElem?_getD, List.getElem?_set, hs]
    have h10b : (s.set 11 (word_add (s.getD 11 0) 1)).getD 10 0 = n := by
      simpa [List.getD_eq_getElem?_getD, List.getElem?_set] using h10
    have hge : ¬ word_add (s.getD 11 0) 1 < n := by omega
    rw [run_loop_step (f + 2) { stack := s, instructions := bytecode n, ip := 4 } _ LAB_VM_OP_ADDI rfl
      (bytecode_step4 n s hs)]
    rw [run_loop_step (f + 1)
      { stack := s.set 11 (word_add (s.getD 11 0) 1), instructions := bytecode n, ip := 8 } _
      LAB_VM_OP_BLT rfl (bytecode_step8 n _ hs1)]
    rw [h11, h10b, if_neg hge, run_loop_exit f _ (by simp [bytecode_length])]
    rw [max_eq_left (by omega)]
  | succ m ih =>
    intro s fuel hs h10 hm hf
    obtain ⟨f, rfl⟩ : ∃ f, fuel = f + 3 := ⟨fuel - 3, by omega⟩
    have hs1 : (s.set 11 (word_add (s.getD 11 0) 1)).length = 32 := by simp [hs]
    have h11 : (s.set 11 (word_add (s.getD 11 0) 1)).getD 11 0 = word_add (s.getD 11 0) 1 := by
      simp [List.getD_eq_getElem?_getD, List.getElem?_set, hs]
    have h10b : (s.set 11 (word_add (s.getD 11 0) 1)).getD 10 0 = n := by
      simpa [List.getD_eq_getElem?_getD, List.getElem?_set] using h10
    rw [run_loop_step (f + 2) { stack := s, instructions := bytecode n, ip := 4 } _ LAB_VM_OP_ADDI rfl
      (bytecode_step4 n s hs)]
    rw [run_loop_step (f + 1)
      { stack := s.set 11 (word_add (s.getD 11 0) 1), instructions := bytecode n, ip := 8 } _
      LAB_VM_OP_BLT rfl (bytecode_step8 n _ hs1)]
    rw [h11, h10b]
    by_cases hlt : word_add (s.getD 11 0) 1 < n
    · rw [if_pos hlt]
      have hw : word_add (word_add (s.getD 11 0) 1) 1 = word_add (s.getD 11 0) 1 + 1 := by
        unfold word_add at hlt ⊢
        exact Nat.mod_eq_of_lt (by omega)
      have := ih (s.set 11 (word_add (s.getD 11 0) 1)) (f + 1) hs1 h10b
        (by rw [h11, hw]; omega) (by omega)
      rw [this, h11, hw, List.set_set, max_eq_right (by omega), max_eq_right (by omega)]
    · rw [if_neg hlt, run_loop_exit f _ (by simp [bytecode_length])]
      rw [max_eq_left (by omega)]

/-! ## `lab_vm_init` -/

/-- The zero-filling loop entered at byte offset `8 * k` clears the words from `k` on and
keeps the words below `k`. -/
theorem lab_vm_init_loop_eq :
    ∀ (m k : Nat) (vm : lab_vm_t), vm.stack.length - k ≤ m → k ≤ vm.stack.length →
      lab_vm_init_loop vm (WORD_SIZE * k) =
        .ok { vm with stack := vm.stack.take k ++ List.replicate (vm.stack.length - k) 0 } := by
  intro m
  induction m with
  | zero =>
    intro k vm hm hk
    have hk2 : k = vm.stack.length := by omega
    rw [lab_vm_init_loop]
    simp [lab_vec_size_stack, hk2]
  | succ m ih =>
    intro k vm hm hk
    rw [lab_vm_init_loop]
    by_cases hlt : k < vm.stack.length
    · have h1 : WORD_SIZE * k < lab_vec_size_stack vm := by
        simp only [lab_vec_size_stack, WORD_SIZE]; omega
      have h2 : lab_vec_at_stack vm (WORD_SIZE * k) = .ok k := by
        simp [lab_vec_at_stack, h1]
      have h3 : WORD_SIZE * k + WORD_SIZE = WORD_SIZE * (k + 1) := by ring
      simp only [h1, h2, dite_true, h3]
      rw [ih (k + 1) (store vm k 0) (by simp [store]; omega) (by simp [store]; omega)]
      simp only [store, List.length_set]
      congr 2
      apply List.ext_getElem?
      intro j
      simp only [List.getElem?_append, List.getElem?_take, List.getElem?_set,
        List.getElem?_replicate, List.length_take, List.length_set]
      by_cases hj1 : j < k
      · have hj2 : j < k + 1 := by omega
        have hj3 : j < min k vm.stack.length := by omega
        have hj4 : j < min (k + 1) vm.stack.length := by omega
        have hj5 : k ≠ j := by omega
        simp [hj1, hj2, hj3, hj4, hj5]
      · by_cases hj6 : j = k
        · subst hj6
          have hj3 : ¬ j < min j vm.stack.length := by omega
          have hj4 : j < min (j + 1) vm.stack.length := by omega
          have hj7 : min j vm.stack.length = j := by omega
          simp [hj3, hj4, hlt, hj7]
        · have hj2 : ¬ j < k + 1 := by omega
          have hj3 : ¬ j < min k vm.stack.length := by omega
          have hj4 : ¬ j < min (k + 1) vm.stack.length := by omega
          have hj7 : min k vm.stack.length = k := by omega
          have hj8 : min (k + 1) vm.stack.length = k + 1 := by omega
          simp only [hj3, hj4, hj7, hj8, if_false]
          by_cases hj9 : j < vm.stack.length
          · have e1 : j - (k + 1) < vm.stack.length - (k + 1) := by omega
            have e2 : j - k < vm.stack.length - k := by omega
            simp [e1, e2, hj1, hj2]
          · have e1 : ¬ j - (k + 1) < vm.stack.length - (k + 1) := by omega
            have e2 : ¬ j - k < vm.stack.length - k := by omega
            simp [e1, e2, hj1, hj2]
    · have hk2 : k = vm.stack.length := by omega
      simp [lab_vec_size_stack, hk2]

/-- When both stores are obtained, `lab_vm_init` returns `true` and leaves the state
`fresh`, whatever the appended register words held. -/
theorem lab_vm_init_eq (junk : Fin 32 → Nat) :
    lab_vm_init true true junk = .ok (some fresh) := by
  have h := lab_vm_init_loop_eq 32 0 { stack := List.ofFn junk, instructions := [], ip := 0 }
    (by simp) (by simp)
  simp only [Nat.mul_zero, List.take_zero, List.nil_append, List.length_ofFn,
    Nat.sub_zero] at h
  simp only [lab_vm_init, lab_vec_init, lab_vec_push_back_arr_null, if_true, List.nil_append,
    h, bind, Except.bind, pure, Except.pure]
  rfl

theorem reg_fresh (r : Nat) : reg fresh r = 0 := by
  simp only [reg, load, fresh, List.getD_eq_getElem?_getD, List.getElem?_replicate]
  split <;> rfl

/-! ## C3 -/

/-- C3: for an immediate `1 ≤ n < 2^64`, on the state a successful `lab_vm_init` leaves,
loaded with `[ADDI, A0, ZERO, n, ADDI, A1, A1, 1, BLT, A1, A0, 4]`, `lab_vm_run`
terminates (within `2 * n + 2` loop iterations) with `true`, registers A1 and A0 equal
to `n`, and `ip = 12`. -/
theorem C3_counting_program (junk : Fin 32 → Nat) (vm0 : lab_vm_t) (n fuel : Nat)
    (hinit : lab_vm_init true true junk = .ok (some vm0))
    (h1 : 1 ≤ n) (h2 : n < 2 ^ 64) (hf : 2 * n + 2 ≤ fuel) :
    ∃ vm1, lab_vm_run fuel (lab_vm_load_instructions true vm0 (bytecode n)).2 =
        some (.ok (true, vm1)) ∧
      reg vm1 (LAB_VM_REG_A1 * WORD_SIZE) = n ∧ reg vm1 (LAB_VM_REG_A0 * WORD_SIZE) = n ∧
      vm1.ip = 12 := by
  rw [lab_vm_init_eq junk] at hinit
  obtain rfl : fresh = vm0 := by
    injection hinit with h
    injection h
  have hn : n < WORD_MOD := by simpa using h2
  obtain ⟨f, rfl⟩ : ∃ f, fuel = f + 1 := ⟨fuel - 1, by omega⟩
  have hs : fresh.stack.length = 32 := by simp [fresh]
  have h0 : word_add (fresh.stack.getD 0 0) n = n := by
    simp only [word_add, fresh, List.getD_eq_getElem?_getD]
    simpa using Nat.mod_eq_of_lt hn
  have hs1 : (fresh.stack.set 10 n).length = 32 := by simp [fresh]
  have h10 : (fresh.stack.set 10 n).getD 10 0 = n := by simp [fresh]
  have h11 : word_add ((fresh.stack.set 10 n).getD 11 0) 1 = 1 := by
    simp [fresh, word_add]
  have hrun : lab_vm_run (f + 1) (lab_vm_load_instructions true fresh (bytecode n)).2 =
      some (.ok (true, { stack := (fresh.stack.set 10 n).set 11 n, instructions := bytecode n,
                         ip := 12 })) := by
    show lab_vm_run_loop (f + 1) { stack := fresh.stack, instructions := bytecode n, ip := 0 } = _
    rw [run_loop_step f { stack := fresh.stack, instructions := bytecode n, ip := 0 } _
      LAB_VM_OP_ADDI rfl (bytecode_step0 n fresh.stack hs), h0]
    rw [bytecode_loop n hn (n - 1) (fresh.stack.set 10 n) f hs1 h10 (by rw [h11]) (by omega)]
    rw [h11, max_eq_right h1]
  refine ⟨_, hrun, ?_, ?_, rfl⟩
  · simp [reg, load, fresh]
  · simp [reg, load, fresh]

/-- C3 at the program of `main`: `n = 15` leaves 15 in register A1. -/
theorem C3_counting_program_witness :
    ∃ vm1, lab_vm_run 32 (lab_vm_load_instructions true fresh (bytecode 15)).2 =
        some (.ok (true, vm1)) ∧
      reg vm1 (LAB_VM_REG_A1 * WORD_SIZE) = 15 ∧ reg vm1 (LAB_VM_REG_A0 * WORD_SIZE) = 15 ∧
      vm1.ip = 12 :=
  C3_counting_program (fun _ => 7) fresh 15 32 (lab_vm_init_eq _) (by decide) (by decide)
    (by decide)

/-! ## C10 -/

/-- C10: after a `lab_vm_init` that returns `true`, each of the 32 registers (byte
offsets 0, 8, ..., 248) reads 0, the register file holds exactly 32 words, the
instruction stream is empty and `ip = 0`. -/
theorem C10_init_state (stack_ok instructions_ok : Bool) (junk : Fin 32 → Nat)
    (vm : lab_vm_t) (h : lab_vm_init stack_ok instructions_ok junk = .ok (some vm)) :
    (∀ r, valid_reg r → reg vm r = 0) ∧ vm.stack.length = 32 ∧ vm.instructions = [] ∧
      vm.ip = 0 := by
  cases stack_ok
  · simp [lab_vm_init, lab_vec_init, pure, Except.pure] at h
  · cases instructions_ok
    · simp [lab_vm_init, lab_vec_init, pure, Except.pure] at h
    · rw [lab_vm_init_eq junk] at h
      obtain rfl : fresh = vm := by
        injection h with h
        injection h
      exact ⟨fun r _ => reg_fresh r, by simp [fresh], rfl, rfl⟩

/-- C10 at a concrete call: both stores obtained, every appended word holding 7. -/
theorem C10_init_state_witness :
    lab_vm_init true true (fun _ => 7) = .ok (some fresh) ∧
    (∀ r, valid_reg r → reg fresh r = 0) ∧ fresh.stack.length = 32 ∧
      fresh.instructions = [] ∧ fresh.ip = 0 :=
  ⟨lab_vm_init_eq _, C10_init_state true true (fun _ => 7) fresh (lab_vm_init_eq _)⟩

/-! ## C4 -/

/-- C4: the opcode word 2^32 is none of 0..10, yet `lab_vm_eval_op` does not return
`false` on it: the conversion `(lab_vm_op_e_t)opcode` keeps its low 32 bits, which are
those of ADD, so the call adds T0 = 3 and T1 = 5 into T0, moves `ip` to 4 and returns
`true`; the word 255 does make the call return `false` with the state unchanged. -/
theorem C4_opcode_low_bits_only :
    lab_vm_eval_op (sample_vm 3 5 [4294967296, 40, 40, 48]) 4294967296 =
        .ok (true, { stack := sample_stack 8 5, instructions := [4294967296, 40, 40, 48],
                     ip := 4 }) ∧
      lab_vm_eval_op (sample_vm 3 5 [255, 40, 40, 48]) 255 =
        .ok (false, sample_vm 3 5 [255, 40, 40, 48]) := by
  constructor <;> rfl

/-! ## C5 -/

/-- C5: the one-word program `[255]` makes `lab_vm_run` return `false` with `ip = 0` and
the registers unchanged; the program `[2^32, 40, 40, 48]`, whose first word is none of
0..10 either, is run as an ADD and `lab_vm_run` returns `true` with `ip = 4` and
T0 changed from 3 to 8. -/
theorem C5_run_opcode_low_bits_only :
    lab_vm_run 1 (sample_vm 3 5 [255]) = some (.ok (false, sample_vm 3 5 [255])) ∧
      lab_vm_run 2 (sample_vm 3 5 [4294967296, 40, 40, 48]) =
        some (.ok (true, { stack := sample_stack 8 5,
                           instructions := [4294967296, 40, 40, 48], ip := 4 })) := by
  constructor <;> rfl

/-- The run loop stops with `false`, leaving the state as it is, at a word whose low
32 bits are none of 0..10. -/
theorem run_loop_unrecognised (fuel : Nat) (vm : lab_vm_t) (w : Nat)
    (hw : vm.instructions[vm.ip]? = some w) (hop : 10 < w % ENUM_MOD) :
    lab_vm_run_loop (fuel + 1) vm = some (.ok (false, vm)) :=
  run_loop_fail fuel vm vm w hw (eval_default vm w hop)

/-! ## C6 -/

/-- C6 fails as stated: `DIV T0, T0, T1` with T0 = 7 and T1 = 0 is not reported as a
failure, neither by `lab_vm_eval_op` nor by the run loop; the division is undefined. -/
theorem C6_div_by_zero_not_reported :
    lab_vm_eval_op (sample_vm 7 0 [4, 40, 40, 48]) 4 = .error Undefined.divisionByZero ∧
      (¬ ∃ vm1, lab_vm_eval_op (sample_vm 7 0 [4, 40, 40, 48]) 4 = .ok (false, vm1)) ∧
      (¬ ∃ vm1, lab_vm_run 9 (sample_vm 7 0 [4, 40, 40, 48]) = some (.ok (false, vm1))) := by
  refine ⟨rfl, ?_, ?_⟩
  · rintro ⟨vm1, h⟩
    have h2 : lab_vm_eval_op (sample_vm 7 0 [4, 40, 40, 48]) 4 =
        .error Undefined.divisionByZero := rfl
    rw [h2] at h
    exact Except.noConfusion h
  · rintro ⟨vm1, h⟩
    have h2 : lab_vm_run 9 (sample_vm 7 0 [4, 40, 40, 48]) =
        some (.error Undefined.divisionByZero) := rfl
    rw [h2] at h
    exact Except.noConfusion (Option.some.inj h)

/-- C6, amended: in a state whose instruction stream holds `[op, d, a, b]` at `ip`, with
`op` DIV or REM, valid register byte-offsets and 0 in register `b`, for any dividend,
the division is executed unchecked: `lab_vm_eval_op` has the undefined outcome
`divisionByZero`, not a `false` return, and so has the run loop entered in that
state. -/
theorem C6_div_rem_by_zero_undefined (vm : lab_vm_t) (op d a b fuel : Nat) (hwf : vm.WF)
    (hop : op = LAB_VM_OP_DIV ∨ op = LAB_VM_OP_REM)
    (h : holds_at vm [op, d, a, b]) (hd : valid_reg d) (ha : valid_reg a)
    (hb : valid_reg b) (hz : reg vm b = 0) :
    lab_vm_eval_op vm op = .error Undefined.divisionByZero ∧
      lab_vm_run_loop (fuel + 1) vm = some (.error Undefined.divisionByZero) := by
  have hw : vm.instructions[vm.ip]? = some op := by
    simpa using holds_at_get h 0 (by simp)
  have hev : lab_vm_eval_op vm op = .error Undefined.divisionByZero := by
    rcases hop with rfl | rfl
    · exact eval_DIV_zero vm _ _ d a b hwf.1 hwf.2.2.2.1 rfl h hd ha hb hz
    · exact eval_REM_zero vm _ _ d a b hwf.1 hwf.2.2.2.1 rfl h hd ha hb hz
  exact ⟨hev, run_loop_undefined fuel vm op _ hw hev⟩

/-- C6, amended, at a concrete state: `REM T0, T0, T1` with T0 = 7 and T1 = 0. -/
theorem C6_div_rem_by_zero_undefined_witness :
    lab_vm_eval_op (sample_vm 7 0 [5, 40, 40, 48]) 5 = .error Undefined.divisionByZero ∧
      lab_vm_run_loop (0 + 1) (sample_vm 7 0 [5, 40, 40, 48]) =
        some (.error Undefined.divisionByZero) :=
  C6_div_rem_by_zero_undefined (sample_vm 7 0 [5, 40, 40, 48]) 5 40 40 48 0
    (sample_vm_WF 7 0 _ (by decide) (by decide) (by decide) (by decide))
    (by decide) (by decide) (by decide) (by decide) (by decide) (by decide)

/-! ## C7 -/

/-- C7: in a state whose instruction stream holds `[op, d, a, b]` at `ip`, with `op` DIV or
REM, valid register byte-offsets and a non-zero value in register `b`,
`lab_vm_eval_op` returns `true` with `ip + 4` in `ip` and the unsigned quotient
(DIV) or remainder (REM) of the prior values of registers `a` and `b` in register `d`;
and when a DIV into `d` (distinct from `a` and `b`) is followed by a REM into another
register `r` on the same operands, quotient and remainder satisfy
`q * B + r = A` with `r < B`. -/
theorem C7_div_rem_step (vm : lab_vm_t) (op d a b : Nat) (hwf : vm.WF)
    (hop : op = LAB_VM_OP_DIV ∨ op = LAB_VM_OP_REM)
    (h : holds_at vm [op, d, a, b]) (hd : valid_reg d) (ha : valid_reg a)
    (hb : valid_reg b) (hz : reg vm b ≠ 0) :
    ∃ vm1, lab_vm_eval_op vm op = .ok (true, vm1) ∧ vm1.ip = vm.ip + 4 ∧
      (op = LAB_VM_OP_DIV → reg vm1 d = reg vm a / reg vm b) ∧
      (op = LAB_VM_OP_REM → reg vm1 d = reg vm a % reg vm b) ∧
      (op = LAB_VM_OP_DIV → d ≠ a → d ≠ b → ∀ r, valid_reg r → r ≠ d →
        holds_at vm1 [LAB_VM_OP_REM, r, a, b] →
        ∃ vm2, lab_vm_eval_op vm1 LAB_VM_OP_REM = .ok (true, vm2) ∧
          reg vm2 d * reg vm b + reg vm2 r = reg vm a ∧ reg vm2 r < reg vm b) := by
  have hs : vm.stack.length = 32 := hwf.1
  have hlen : vm.instructions.length < WORD_MOD := hwf.2.2.2.1
  rcases hop with rfl | rfl
  · refine ⟨_, eval_DIV vm _ _ d a b hs hlen rfl h hd ha hb hz, rfl, ?_, ?_, ?_⟩
    · intro _
      exact reg_set_same vm d _ hs hd _ _
    · intro hc; exact absurd hc (by decide)
    · intro _ hda hdb r hr hrd h2
      have hs1 : (vm.stack.set (d / WORD_SIZE) (reg vm a / reg vm b)).length = 32 := by
        simp [hs]
      have ea : reg { stack := vm.stack.set (d / WORD_SIZE) (reg vm a / reg vm b),
                      instructions := vm.instructions, ip := vm.ip + 4 } a = reg vm a :=
        reg_set_other vm d a _ hd ha (Ne.symm hda) _ _
      have eb : reg { stack := vm.stack.set (d / WORD_SIZE) (reg vm a / reg vm b),
                      instructions := vm.instructions, ip := vm.ip + 4 } b = reg vm b :=
        reg_set_other vm d b _ hd hb (Ne.symm hdb) _ _
      have ed : reg { stack := vm.stack.set (d / WORD_SIZE) (reg vm a / reg vm b),
                      instructions := vm.instructions, ip := vm.ip + 4 } d = reg vm a / reg vm b :=
        reg_set_same vm d _ hs hd _ _
      refine ⟨_, eval_REM _ _ _ r a b hs1 hlen rfl h2 hr ha hb (by rw [eb]; exact hz), ?_, ?_⟩
      · rw [reg_set_same _ r _ hs1 hr, reg_set_other _ r d _ hr hd (Ne.symm hrd), ea, eb, ed]
        exact Nat.div_add_mod' _ _
      · rw [reg_set_same _ r _ hs1 hr, ea, eb]
        exact Nat.mod_lt _ (Nat.pos_of_ne_zero hz)
  · refine ⟨_, eval_REM vm _ _ d a b hs hlen rfl h hd ha hb hz, rfl, ?_, ?_, ?_⟩
    · intro hc; exact absurd hc (by decide)
    · intro _
      exact reg_set_same vm d _ hs hd _ _
    · intro hc; exact absurd hc (by decide)

/-- C7 at a concrete state: `DIV T2, T0, T1` with T0 = 17 and T1 = 5, followed in the
instruction stream by `REM FP, T0, T1`. -/
theorem C7_div_rem_step_witness :
    ∃ vm1, lab_vm_eval_op (sample_vm 17 5 [4, 56, 40, 48, 5, 64, 40, 48]) 4 =
        .ok (true, vm1) ∧
      vm1.ip = (sample_vm 17 5 [4, 56, 40, 48, 5, 64, 40, 48]).ip + 4 ∧
      ((4 : Nat) = LAB_VM_OP_DIV → reg vm1 56 =
        reg (sample_vm 17 5 [4, 56, 40, 48, 5, 64, 40, 48]) 40 /
          reg (sample_vm 17 5 [4, 56, 40, 48, 5, 64, 40, 48]) 48) ∧
      ((4 : Nat) = LAB_VM_OP_REM → reg vm1 56 =
        reg (sample_vm 17 5 [4, 56, 40, 48, 5, 64, 40, 48]) 40 %
          reg (sample_vm 17 5 [4, 56, 40, 48, 5, 64, 40, 48]) 48) ∧
      ((4 : Nat) = LAB_VM_OP_DIV → (56 : Nat) ≠ 40 → (56 : Nat) ≠ 48 →
        ∀ r, valid_reg r → r ≠ 56 → holds_at vm1 [LAB_VM_OP_REM, r, 40, 48] →
        ∃ vm2, lab_vm_eval_op vm1 LAB_VM_OP_REM = .ok (true, vm2) ∧
          reg vm2 56 * reg (sample_vm 17 5 [4, 56, 40, 48, 5, 64, 40, 48]) 48 + reg vm2 r =
            reg (sample_vm 17 5 [4, 56, 40, 48, 5, 64, 40, 48]) 40 ∧
          reg vm2 r < reg (sample_vm 17 5 [4, 56, 40, 48, 5, 64, 40, 48]) 48) :=
  C7_div_rem_step (sample_vm 17 5 [4, 56, 40, 48, 5, 64, 40, 48]) 4 56 40 48
    (sample_vm_WF 17 5 _ (by decide) (by decide) (by decide) (by decide))
    (by decide) (by decide) (by decide) (by decide) (by decide) (by decide)

/-! ## C8 -/

/-- The value of a register with a valid byte offset is a `size_t`. -/
theorem reg_lt (vm : lab_vm_t) (hwf : vm.WF) (r : Nat) : reg vm r < WORD_MOD := by
  simp only [reg, load, List.getD_eq_getElem?_getD]
  cases hr : vm.stack[r / WORD_SIZE]? with
  | none => simp
  | some v =>
    simp only [Option.getD_some]
    exact hwf.2.1 v (List.getElem?_mem hr)

/-- C8: in a state whose instruction stream holds `[ADDI, d, a, imm]` at `ip`, with `d`
and `a` valid register byte-offsets and `imm` any word, `lab_vm_eval_op` returns `true`
and leaves in register `d` the prior value of register `a` plus the literal `imm`,
modulo 2^64; with `imm = 0` register `d` ends equal to the prior value of
register `a`. -/
theorem C8_addi_step (vm : lab_vm_t) (d a imm : Nat) (hwf : vm.WF)
    (h : holds_at vm [LAB_VM_OP_ADDI, d, a, imm]) (hd : valid_reg d) (ha : valid_reg a) :
    ∃ vm1, lab_vm_eval_op vm LAB_VM_OP_ADDI = .ok (true, vm1) ∧
      reg vm1 d = (reg vm a + imm) % 2 ^ 64 ∧ (imm = 0 → reg vm1 d = reg vm a) := by
  refine ⟨_, eval_ADDI vm _ _ d a imm hwf.1 hwf.2.2.2.1 rfl h hd ha, ?_, ?_⟩
  · rw [reg_set_same vm d _ hwf.1 hd]
    rfl
  · intro h0
    rw [reg_set_same vm d _ hwf.1 hd, h0]
    exact Nat.mod_eq_of_lt (reg_lt vm hwf a)

/-- C8 at a concrete state: `ADDI T1, T0, 1000` with T0 = 3; the immediate 1000 is no
register byte-offset. -/
theorem C8_addi_step_witness :
    ∃ vm1, lab_vm_eval_op (sample_vm 3 5 [1, 48, 40, 1000]) LAB_VM_OP_ADDI = .ok (true, vm1) ∧
      reg vm1 48 = (reg (sample_vm 3 5 [1, 48, 40, 1000]) 40 + 1000) % 2 ^ 64 ∧
      ((1000 : Nat) = 0 → reg vm1 48 = reg (sample_vm 3 5 [1, 48, 40, 1000]) 40) :=
  C8_addi_step (sample_vm 3 5 [1, 48, 40, 1000]) 48 40 1000
    (sample_vm_WF 3 5 _ (by decide) (by decide) (by decide) (by decide))
    (by decide) (by decide) (by decide)

/-! ## C9 -/

/-- C9: in a state whose instruction stream holds `[JAL, r, target]` at `ip`, with `r` a
valid register byte-offset, `lab_vm_eval_op` returns `true` and leaves the state as it
was except for `ip = target`: no register is written, only the two operand words are
read, and the result depends neither on `r` nor on the register contents. -/
theorem C9_jal_step (vm : lab_vm_t) (r target : Nat) (hwf : vm.WF)
    (h : holds_at vm [LAB_VM_OP_JAL, r, target]) (hr : valid_reg r) :
    lab_vm_eval_op vm LAB_VM_OP_JAL =
      .ok (true, { stack := vm.stack, instructions := vm.instructions, ip := target }) :=
  eval_JAL vm _ _ r target hwf.1 hwf.2.2.2.1 rfl h hr

/-- C9 at a concrete state: `JAL T0, 77` as the last three words of the stream. -/
theorem C9_jal_step_witness :
    lab_vm_eval_op (sample_vm 3 5 [6, 40, 77]) LAB_VM_OP_JAL =
      .ok (true, { stack := (sample_vm 3 5 [6, 40, 77]).stack,
                   instructions := (sample_vm 3 5 [6, 40, 77]).instructions, ip := 77 }) :=
  C9_jal_step (sample_vm 3 5 [6, 40, 77]) 40 77
    (sample_vm_WF 3 5 _ (by decide) (by decide) (by decide) (by decide))
    (by decide) (by decide)

/-! ## C12 -/

/-- C12: for every state `vm` and every program `p`, a successful
`lab_vm_unload_instructions` followed by a successful `lab_vm_load_instructions` of
`p` and by `lab_vm_run` gives, for every amount of fuel, exactly the result of
`lab_vm_run` on the state with the registers of `vm`, the instruction stream `p` and
`ip = 0`: neither the earlier instruction words nor the earlier `ip` matter. -/
theorem C12_unload_load_run (vm : lab_vm_t) (p : List Nat) (fuel : Nat) :
    (lab_vm_unload_instructions true vm).1 = true ∧
    (lab_vm_load_instructions true (lab_vm_unload_instructions true vm).2 p).1 = true ∧
    lab_vm_run fuel (lab_vm_load_instructions true (lab_vm_unload_instructions true vm).2 p).2 =
      lab_vm_run fuel { stack := vm.stack, instructions := p, ip := 0 } := by
  simp [lab_vm_unload_instructions, lab_vm_load_instructions, lab_vec_resize_zero,
    lab_vec_push_back_arr, lab_vm_run]

/-! ## C13 -/

/-- C13: a `lab_vm_load_instructions` of the words `p` that returns `true` leaves the
instruction stream equal to the former stream followed by `p` and leaves `ip` and the
register file as they were; loading `p` and then `q` gives the same state as loading
`p ++ q` at once. -/
theorem C13_load_appends (ok : Bool) (vm vm1 : lab_vm_t) (p : List Nat)
    (h : lab_vm_load_instructions ok vm p = (true, vm1)) :
    vm1.instructions = vm.instructions ++ p ∧ vm1.ip = vm.ip ∧ vm1.stack = vm.stack ∧
      ∀ q, lab_vm_load_instructions true vm1 q = lab_vm_load_instructions true vm (p ++ q) := by
  cases ok
  · simp [lab_vm_load_instructions, lab_vec_push_back_arr] at h
  · simp only [lab_vm_load_instructions, lab_vec_push_back_arr, if_true, Prod.mk.injEq,
      true_and] at h
    subst h
    refine ⟨rfl, rfl, rfl, ?_⟩
    intro q
    simp [lab_vm_load_instructions, lab_vec_push_back_arr, List.append_assoc]

/-- C13 at a concrete state: loading `[6, 40, 0]` after `[1, 48, 40, 7]`. -/
theorem C13_load_appends_witness :
    (sample_vm 3 5 [1, 48, 40, 7, 6, 40, 0]).instructions =
        (sample_vm 3 5 [1, 48, 40, 7]).instructions ++ [6, 40, 0] ∧
      (sample_vm 3 5 [1, 48, 40, 7, 6, 40, 0]).ip = (sample_vm 3 5 [1, 48, 40, 7]).ip ∧
      (sample_vm 3 5 [1, 48, 40, 7, 6, 40, 0]).stack = (sample_vm 3 5 [1, 48, 40, 7]).stack ∧
      ∀ q, lab_vm_load_instructions true (sample_vm 3 5 [1, 48, 40, 7, 6, 40, 0]) q =
        lab_vm_load_instructions true (sample_vm 3 5 [1, 48, 40, 7]) ([6, 40, 0] ++ q) :=
  C13_load_appends true (sample_vm 3 5 [1, 48, 40, 7]) (sample_vm 3 5 [1, 48, 40, 7, 6, 40, 0])
    [6, 40, 0] rfl

/-! ## C14 -/

/-- C14: a `lab_vm_unload_instructions` that returns `true` leaves an instruction stream
of length 0 and leaves `ip` (not reset to 0) and the register file as they were;
unloading again gives the same state. -/
theorem C14_unload_empties (ok : Bool) (vm vm1 : lab_vm_t)
    (h : lab_vm_unload_instructions ok vm = (true, vm1)) :
    vm1.instructions.length = 0 ∧ vm1.ip = vm.ip ∧ vm1.stack = vm.stack ∧
      lab_vm_unload_instructions true vm1 = (true, vm1) := by
  cases ok
  · simp [lab_vm_unload_instructions, lab_vec_resize_zero] at h
  · simp only [lab_vm_unload_instructions, lab_vec_resize_zero, if_true, Prod.mk.injEq,
      true_and] at h
    subst h
    exact ⟨rfl, rfl, rfl, rfl⟩

/-- C14 at a concrete state: unloading in the middle of a stream, with `ip = 4`. -/
theorem C14_unload_empties_witness :
    ({ stack := sample_stack 3 5, instructions := [], ip := 4 } : lab_vm_t).instructions.length = 0 ∧
      ({ stack := sample_stack 3 5, instructions := [], ip := 4 } : lab_vm_t).ip =
        ({ stack := sample_stack 3 5, instructions := [1, 48, 40, 7, 6, 40, 0], ip := 4 } :
          lab_vm_t).ip ∧
      ({ stack := sample_stack 3 5, instructions := [], ip := 4 } : lab_vm_t).stack =
        ({ stack := sample_stack 3 5, instructions := [1, 48, 40, 7, 6, 40, 0], ip := 4 } :
          lab_vm_t).stack ∧
      lab_vm_unload_instructions true { stack := sample_stack 3 5, instructions := [], ip := 4 } =
        (true, { stack := sample_stack 3 5, instructions := [], ip := 4 }) :=
  C14_unload_empties true
    { stack := sample_stack 3 5, instructions := [1, 48, 40, 7, 6, 40, 0], ip := 4 }
    { stack := sample_stack 3 5, instructions := [], ip := 4 } rfl

/-! ## Arithmetic instructions in general -/

/-- The six arithmetic cases of `lab_vm_eval_op` at once: the destination receives
`arith_value`, nothing else in the register file changes, and `ip` moves by 4. -/
theorem eval_arith (vm : lab_vm_t) (op w d a x : Nat) (hs : vm.stack.length = 32)
    (hlen : vm.instructions.length < WORD_MOD) (hop : op ≤ LAB_VM_OP_REM)
    (h : holds_at vm [w, d, a, x]) (hd : valid_reg d) (ha : valid_reg a)
    (hx : op ≠ LAB_VM_OP_ADDI → valid_reg x)
    (hz : op = LAB_VM_OP_DIV ∨ op = LAB_VM_OP_REM → reg vm x ≠ 0) :
    lab_vm_eval_op vm op = .ok (true,
      { stack := vm.stack.set (d / WORD_SIZE) (arith_value vm op a x),
        instructions := vm.instructions, ip := vm.ip + 4 }) := by
  have h5 : op ≤ 5 := hop
  interval_cases op
  · exact eval_ADD vm _ w d a x hs hlen rfl h hd ha (hx (by decide))
  · exact eval_ADDI vm _ w d a x hs hlen rfl h hd ha
  · exact eval_SUB vm _ w d a x hs hlen rfl h hd ha (hx (by decide))
  · exact eval_MUL vm _ w d a x hs hlen rfl h hd ha (hx (by decide))
  · exact eval_DIV vm _ w d a x hs hlen rfl h hd ha (hx (by decide)) (hz (Or.inl rfl))
  · exact eval_REM vm _ w d a x hs hlen rfl h hd ha (hx (by decide)) (hz (Or.inr rfl))

/-! ## C17 -/

/-- C17: an arithmetic instruction (ADD, ADDI, SUB, MUL, DIV, REM) whose destination
operand is byte-offset 0 returns `true` and leaves its result in register 0, as it
does for any other destination; and the run of `[ADDI, ZERO, ZERO, 5]` on the state
`lab_vm_init` leaves returns `true` with 5 in register 0. -/
theorem C17_zero_register_written (vm : lab_vm_t) (op a x : Nat) (hwf : vm.WF)
    (hop : op ≤ LAB_VM_OP_REM)
    (h : holds_at vm [op, LAB_VM_REG_ZERO * WORD_SIZE, a, x]) (ha : valid_reg a)
    (hx : op ≠ LAB_VM_OP_ADDI → valid_reg x)
    (hz : op = LAB_VM_OP_DIV ∨ op = LAB_VM_OP_REM → reg vm x ≠ 0) :
    (∃ vm1, lab_vm_eval_op vm op = .ok (true, vm1) ∧
      reg vm1 (LAB_VM_REG_ZERO * WORD_SIZE) = arith_value vm op a x) ∧
    (∃ vm2, lab_vm_run 2 (lab_vm_load_instructions true fresh
        [LAB_VM_OP_ADDI, LAB_VM_REG_ZERO * WORD_SIZE, LAB_VM_REG_ZERO * WORD_SIZE, 5]).2 =
          some (.ok (true, vm2)) ∧
      reg vm2 (LAB_VM_REG_ZERO * WORD_SIZE) = 5) := by
  constructor
  · refine ⟨_, eval_arith vm op op _ a x hwf.1 hwf.2.2.2.1 hop h (by decide) ha hx hz, ?_⟩
    exact reg_set_same vm _ _ hwf.1 (by decide) _ _
  · exact ⟨_, rfl, rfl⟩

/-- C17 at a concrete state: `MUL ZERO, T0, T1` with T0 = 3 and T1 = 5 leaves 15 in
register 0. -/
theorem C17_zero_register_written_witness :
    (∃ vm1, lab_vm_eval_op (sample_vm 3 5 [3, 0, 40, 48]) 3 = .ok (true, vm1) ∧
      reg vm1 (LAB_VM_REG_ZERO * WORD_SIZE) = arith_value (sample_vm 3 5 [3, 0, 40, 48]) 3 40 48) ∧
    (∃ vm2, lab_vm_run 2 (lab_vm_load_instructions true fresh
        [LAB_VM_OP_ADDI, LAB_VM_REG_ZERO * WORD_SIZE, LAB_VM_REG_ZERO * WORD_SIZE, 5]).2 =
          some (.ok (true, vm2)) ∧
      reg vm2 (LAB_VM_REG_ZERO * WORD_SIZE) = 5) :=
  C17_zero_register_written (sample_vm 3 5 [3, 0, 40, 48]) 3 40 48
    (sample_vm_WF 3 5 _ (by decide) (by decide) (by decide) (by decide))
    (by decide) (by decide) (by decide) (fun _ => by decide) (by decide)

/-! ## C20 -/

/-- C20: in every state with 0 in register ZERO and the program
`[ADDI, A0, ZERO, n, ADDI, A1, A1, 1, BLT, A1, A0, 4]` loaded, `lab_vm_run` terminates
with `true` and leaves in A1 the larger of `(v + 1) mod 2^64` and `n`, `v` being the
prior value of A1.  With `n = 0` on the state `lab_vm_init` leaves, A1 ends as 1; the
program of `main` (`n = 15`) run a second time on the same machine leaves 16. -/
theorem C20_counting_do_while (vm : lab_vm_t) (n fuel : Nat) (hwf : vm.WF) (hn : n < 2 ^ 64)
    (hz : reg vm (LAB_VM_REG_ZERO * WORD_SIZE) = 0) (hprog : vm.instructions = bytecode n)
    (hf : 2 * n + 4 ≤ fuel) :
    (∃ vm1, lab_vm_run fuel vm = some (.ok (true, vm1)) ∧
      reg vm1 (LAB_VM_REG_A1 * WORD_SIZE) =
        max ((reg vm (LAB_VM_REG_A1 * WORD_SIZE) + 1) % 2 ^ 64) n) ∧
    (∃ vm2, lab_vm_run 4 (lab_vm_load_instructions true fresh (bytecode 0)).2 =
        some (.ok (true, vm2)) ∧
      reg vm2 (LAB_VM_REG_A1 * WORD_SIZE) = 1) ∧
    (∃ vm3 vm4, lab_vm_run 32 (lab_vm_load_instructions true fresh (bytecode 15)).2 =
        some (.ok (true, vm3)) ∧
      lab_vm_run 34 (lab_vm_load_instructions true (lab_vm_unload_instructions true vm3).2
        (bytecode 15)).2 = some (.ok (true, vm4)) ∧
      reg vm4 (LAB_VM_REG_A1 * WORD_SIZE) = 16) := by
  refine ⟨?_, ⟨_, rfl, rfl⟩, ⟨_, _, rfl, rfl, rfl⟩⟩
  obtain ⟨s, ins, ip⟩ := vm
  simp only at hprog
  subst hprog
  have hs : s.length = 32 := hwf.1
  have hn2 : n < WORD_MOD := by simpa using hn
  have hz2 : s.getD 0 0 = 0 := by simpa [reg, load] using hz
  obtain ⟨f, rfl⟩ : ∃ f, fuel = f + 1 := ⟨fuel - 1, by omega⟩
  have h0 : word_add (s.getD 0 0) n = n := by
    rw [hz2]
    simpa [word_add] using Nat.mod_eq_of_lt hn2
  have hs1 : (s.set 10 n).length = 32 := by simp [hs]
  have h10 : (s.set 10 n).getD 10 0 = n := by
    simp [List.getD_eq_getElem?_getD, List.getElem?_set, hs]
  have h11 : (s.set 10 n).getD 11 0 = s.getD 11 0 := by
    simp [List.getD_eq_getElem?_getD, List.getElem?_set]
  have hrun : lab_vm_run (f + 1) { stack := s, instructions := bytecode n, ip := ip } =
      some (.ok (true, { stack := (s.set 10 n).set 11 (max (word_add (s.getD 11 0) 1) n),
                         instructions := bytecode n, ip := 12 })) := by
    show lab_vm_run_loop (f + 1) { stack := s, instructions := bytecode n, ip := 0 } = _
    rw [run_loop_step f { stack := s, instructions := bytecode n, ip := 0 } _
      LAB_VM_OP_ADDI rfl (bytecode_step0 n s hs), h0]
    rw [bytecode_loop n hn2 n (s.set 10 n) f hs1 h10 (by omega) (by omega), h11]
  refine ⟨_, hrun, ?_⟩
  have e := reg_set_same { stack := s.set 10 n, instructions := bytecode n, ip := 12 }
    (LAB_VM_REG_A1 * WORD_SIZE) (max (word_add (s.getD 11 0) 1) n) hs1 (by decide)
    (bytecode n) 12
  rw [show LAB_VM_REG_A1 * WORD_SIZE / WORD_SIZE = 11 from rfl] at e
  rw [e]
  simp [reg, load, word_add]

/-- C20 at a concrete state: `n = 3` with 9 already in A1 and a stale `ip = 7` leaves 10
in A1. -/
theorem C20_counting_do_while_witness :
    (∃ vm1, lab_vm_run 10 { stack := (sample_stack 0 0).set 11 9, instructions := bytecode 3,
                            ip := 7 } = some (.ok (true, vm1)) ∧
      reg vm1 (LAB_VM_REG_A1 * WORD_SIZE) =
        max ((reg { stack := (sample_stack 0 0).set 11 9, instructions := bytecode 3,
                    ip := 7 } (LAB_VM_REG_A1 * WORD_SIZE) + 1) % 2 ^ 64) 3) ∧
    (∃ vm2, lab_vm_run 4 (lab_vm_load_instructions true fresh (bytecode 0)).2 =
        some (.ok (true, vm2)) ∧
      reg vm2 (LAB_VM_REG_A1 * WORD_SIZE) = 1) ∧
    (∃ vm3 vm4, lab_vm_run 32 (lab_vm_load_instructions true fresh (bytecode 15)).2 =
        some (.ok (true, vm3)) ∧
      lab_vm_run 34 (lab_vm_load_instructions true (lab_vm_unload_instructions true vm3).2
        (bytecode 15)).2 = some (.ok (true, vm4)) ∧
      reg vm4 (LAB_VM_REG_A1 * WORD_SIZE) = 16) :=
  C20_counting_do_while
    { stack := (sample_stack 0 0).set 11 9, instructions := bytecode 3, ip := 7 } 3 10
    ⟨by decide, by decide, by decide, by decide, by decide⟩ (by decide) (by decide) rfl
    (by decide)

/-! ## Jumps -/

/-- A JAL or a taken conditional jump returns `true` and changes nothing but `ip`, which
becomes the target. -/
theorem jumps_to_eval (vm : lab_vm_t) (t : Nat) (hs : vm.stack.length = 32)
    (hlen : vm.instructions.length < WORD_MOD) (h : jumps_to vm t) :
    ∃ op, vm.instructions[vm.ip]? = some op ∧
      lab_vm_eval_op vm op = .ok (true, { vm with ip := t }) := by
  rcases h with ⟨r, hr, h⟩ | ⟨op, a, b, ha, hb, h, ht⟩
  · refine ⟨LAB_VM_OP_JAL, by simpa using holds_at_get h 0 (by simp), ?_⟩
    exact eval_JAL vm _ _ r t hs hlen rfl h hr
  · refine ⟨op, by simpa using holds_at_get h 0 (by simp), ?_⟩
    rcases ht with ⟨rfl, hc⟩ | ⟨rfl, hc⟩ | ⟨rfl, hc⟩ | ⟨rfl, hc⟩
    · rw [eval_BEQ vm _ _ a b t hs hlen rfl h ha hb, if_pos hc]
    · rw [eval_BNE vm _ _ a b t hs hlen rfl h ha hb, if_pos hc]
    · rw [eval_BLT vm _ _ a b t hs hlen rfl h ha hb, if_pos hc]
    · rw [eval_BGE vm _ _ a b t hs hlen rfl h ha hb, if_pos hc]

/-! ## C11 -/

/-- C11: when the instruction the run loop is about to execute is a JAL or a taken
conditional jump whose target is the number of instruction words, the loop executes
that instruction, then ends: `lab_vm_run` returns `true` with `ip` equal to that
number and everything else as it was, and no undefined access occurs. -/
theorem C11_jump_to_end (vm : lab_vm_t) (fuel : Nat) (hwf : vm.WF)
    (h : jumps_to vm vm.instructions.length) :
    lab_vm_run_loop (fuel + 2) vm =
      some (.ok (true, { vm with ip := vm.instructions.length })) := by
  obtain ⟨op, hop, hev⟩ := jumps_to_eval vm _ hwf.1 hwf.2.2.2.1 h
  rw [run_loop_step (fuel + 1) vm _ op hop hev]
  exact run_loop_exit fuel _ (Nat.le_refl _)

/-- C11 at a concrete state: `BEQ T0, T0, 4` as the whole program. -/
theorem C11_jump_to_end_witness :
    lab_vm_run_loop (0 + 2) (sample_vm 3 5 [7, 40, 40, 4]) =
      some (.ok (true, { sample_vm 3 5 [7, 40, 40, 4] with
        ip := (sample_vm 3 5 [7, 40, 40, 4]).instructions.length })) :=
  C11_jump_to_end (sample_vm 3 5 [7, 40, 40, 4]) 0
    (sample_vm_WF 3 5 _ (by decide) (by decide) (by decide) (by decide))
    (Or.inr ⟨7, 40, 40, by decide, by decide, by decide, by decide⟩)

/-! ## C18 -/

/-- C18: when the instruction at `ip` is a JAL whose target is `ip` itself, or a
conditional jump with that target whose condition holds, `lab_vm_eval_op` returns
`true` and leaves the whole state as it was; `ip` stays below the number of
instruction words, the run loop is back in the same state after any number of
iterations, and so it never returns, nor does `lab_vm_run` when that position is 0. -/
theorem C18_self_jump_diverges (vm : lab_vm_t) (hwf : vm.WF) (h : jumps_to vm vm.ip) :
    (∃ op, vm.instructions[vm.ip]? = some op ∧ lab_vm_eval_op vm op = .ok (true, vm)) ∧
      vm.ip < vm.instructions.length ∧
      (∀ k fuel, lab_vm_run_loop (fuel + k) vm = lab_vm_run_loop fuel vm) ∧
      (∀ fuel, lab_vm_run_loop fuel vm = none) ∧
      (vm.ip = 0 → ∀ fuel, lab_vm_run fuel vm = none) := by
  obtain ⟨op, hop, hev⟩ := jumps_to_eval vm _ hwf.1 hwf.2.2.2.1 h
  have hev2 : lab_vm_eval_op vm op = .ok (true, vm) := hev
  have hlt : vm.ip < vm.instructions.length := by
    by_contra hc
    rw [List.getElem?_eq_none (by omega)] at hop
    exact Option.noConfusion hop
  have hk : ∀ k fuel, lab_vm_run_loop (fuel + k) vm = lab_vm_run_loop fuel vm := by
    intro k
    induction k with
    | zero => intro fuel; rfl
    | succ k ih =>
      intro fuel
      rw [← Nat.add_assoc, run_loop_step (fuel + k) vm vm op hop hev2]
      exact ih fuel
  have hnone : ∀ fuel, lab_vm_run_loop fuel vm = none := by
    intro fuel
    have := hk fuel 0
    rw [Nat.zero_add] at this
    rw [this]
    rfl
  refine ⟨⟨op, hop, hev2⟩, hlt, hk, hnone, ?_⟩
  intro h0 fuel
  have e : ({ vm with ip := 0 } : lab_vm_t) = vm := by
    obtain ⟨s, ins, ip⟩ := vm
    simp only at h0
    subst h0
    rfl
  show lab_vm_run_loop fuel { vm with ip := 0 } = none
  rw [e]
  exact hnone fuel

/-- C18 at a concrete state: `JAL T0, 0` at position 0. -/
theorem C18_self_jump_diverges_witness :
    (∃ op, (sample_vm 3 5 [6, 40, 0]).instructions[(sample_vm 3 5 [6, 40, 0]).ip]? = some op ∧
        lab_vm_eval_op (sample_vm 3 5 [6, 40, 0]) op = .ok (true, sample_vm 3 5 [6, 40, 0])) ∧
      (sample_vm 3 5 [6, 40, 0]).ip < (sample_vm 3 5 [6, 40, 0]).instructions.length ∧
      (∀ k fuel, lab_vm_run_loop (fuel + k) (sample_vm 3 5 [6, 40, 0]) =
        lab_vm_run_loop fuel (sample_vm 3 5 [6, 40, 0])) ∧
      (∀ fuel, lab_vm_run_loop fuel (sample_vm 3 5 [6, 40, 0]) = none) ∧
      ((sample_vm 3 5 [6, 40, 0]).ip = 0 →
        ∀ fuel, lab_vm_run fuel (sample_vm 3 5 [6, 40, 0]) = none) :=
  C18_self_jump_diverges (sample_vm 3 5 [6, 40, 0])
    (sample_vm_WF 3 5 _ (by decide) (by decide) (by decide) (by decide))
    (Or.inl ⟨40, by decide, by decide⟩)

/-! ## What a returning call tells -/

theorem fetch_word_inv {vm vm1 : lab_vm_t} {w : Nat} (h : fetch_word vm = .ok (w, vm1)) :
    vm1 = incr_ip vm ∧ (incr_ip vm).ip < vm.instructions.length ∧
      vm.instructions[(incr_ip vm).ip]? = some w := by
  unfold fetch_word at h
  simp only [lab_vec_at_instructions, lab_vec_size_instructions] at h
  by_cases hb : (incr_ip vm).ip < (incr_ip vm).instructions.length
  · simp only [hb, if_true, Except.ok.injEq, Prod.mk.injEq] at h
    obtain ⟨hw, hv⟩ := h
    have hb2 : (incr_ip vm).ip < vm.instructions.length := hb
    refine ⟨hv.symm, hb2, ?_⟩
    rw [← hw]
    have hi : (incr_ip vm).instructions = vm.instructions := rfl
    simp only [load_instruction, List.getD_eq_getElem?_getD, hi]
    rw [List.getElem?_eq_getElem hb2]
    rfl
  · simp [hb] at h

/-- A pointer into the register file that designates a word comes from an aligned
byte-offset inside the file. -/
theorem lab_vec_at_stack_ok {vm : lab_vm_t} {w i : Nat} (h : lab_vec_at_stack vm w = .ok i) :
    w < WORD_SIZE * vm.stack.length ∧ w % WORD_SIZE = 0 ∧ i = w / WORD_SIZE := by
  simp only [lab_vec_at_stack, lab_vec_size_stack] at h
  by_cases h1 : w < WORD_SIZE * vm.stack.length
  · by_cases h2 : w % WORD_SIZE = 0
    · simp only [h1, h2, if_true, Except.ok.injEq] at h
      exact ⟨h1, h2, h.symm⟩
    · simp [h1, h2] at h
  · simp [h1] at h

/-- A pointer into the instruction stream that designates a word has its index inside
the stream. -/
theorem lab_vec_at_instructions_ok {vm : lab_vm_t} {j i : Nat}
    (h : lab_vec_at_instructions vm j = .ok i) : j < vm.instructions.length ∧ i = j := by
  simp only [lab_vec_at_instructions, lab_vec_size_instructions] at h
  by_cases h1 : j < vm.instructions.length
  · simp only [h1, if_true, Except.ok.injEq] at h
    exact ⟨h1, h.symm⟩
  · simp [h1] at h

theorem incr_ip_eq (vm : lab_vm_t) (hlen : vm.instructions.length < WORD_MOD)
    (hip : vm.ip < vm.instructions.length) :
    incr_ip vm = { vm with ip := vm.ip + 1 } := by
  have e : (vm.ip + 1) % WORD_MOD = vm.ip + 1 := Nat.mod_eq_of_lt (by omega)
  simp only [incr_ip, e]

theorem fetch_reg_inv_run (vm : lab_vm_t) {vm1 : lab_vm_t} {p : Except Undefined Nat}
    (hlen : vm.instructions.length < WORD_MOD) (hip : vm.ip < vm.instructions.length)
    (h : fetch_reg vm = .ok (p, vm1)) :
    vm1 = { vm with ip := vm.ip + 1 } ∧ vm.ip + 1 < vm.instructions.length ∧
      ∃ w, vm.instructions[vm.ip + 1]? = some w ∧ p = lab_vec_at_stack vm w := by
  unfold fetch_reg at h
  cases hf : fetch_word vm with
  | error u => rw [hf] at h; exact Except.noConfusion h
  | ok x =>
    obtain ⟨w, v⟩ := x
    obtain ⟨hv, hb, hw⟩ := fetch_word_inv hf
    subst hv
    rw [hf] at h
    simp only [Except.ok.injEq, Prod.mk.injEq] at h
    rw [incr_ip_eq vm hlen hip] at hb hw h
    exact ⟨h.2.symm, hb, w, hw, h.1.symm⟩

theorem fetch_imm_inv_run (vm : lab_vm_t) {vm1 : lab_vm_t} {p : Except Undefined Nat}
    (hlen : vm.instructions.length < WORD_MOD) (hip : vm.ip < vm.instructions.length)
    (h : fetch_imm vm = .ok (p, vm1)) :
    vm1 = { vm with ip := vm.ip + 1 } ∧ p = lab_vec_at_instructions vm (vm.ip + 1) := by
  unfold fetch_imm at h
  simp only [Except.ok.injEq, Prod.mk.injEq] at h
  rw [incr_ip_eq vm hlen hip] at h
  exact ⟨h.2.symm, h.1.symm⟩

/-- Three register operands decoded one after the other. -/
theorem decode_rrr {vm v1 v2 v3 : lab_vm_t} {d a b : Except Undefined Nat}
    (hlen : vm.instructions.length < WORD_MOD) (hip : vm.ip < vm.instructions.length)
    (h1 : fetch_reg vm = .ok (d, v1)) (h2 : fetch_reg v1 = .ok (a, v2))
    (h3 : fetch_reg v2 = .ok (b, v3)) :
    v3 = { vm with ip := vm.ip + 3 } ∧ vm.ip + 3 < vm.instructions.length ∧
      ∃ w1 w2 w3, vm.instructions[vm.ip + 1]? = some w1 ∧
        vm.instructions[vm.ip + 2]? = some w2 ∧ vm.instructions[vm.ip + 3]? = some w3 ∧
        d = lab_vec_at_stack vm w1 ∧ a = lab_vec_at_stack vm w2 ∧
        b = lab_vec_at_stack vm w3 := by
  obtain ⟨e1, b1, w1, g1, q1⟩ := fetch_reg_inv_run vm hlen hip h1
  subst e1
  obtain ⟨e2, b2, w2, g2, q2⟩ := fetch_reg_inv_run { vm with ip := vm.ip + 1 } hlen b1 h2
  subst e2
  have b2 : vm.ip + 2 < vm.instructions.length := b2
  obtain ⟨e3, b3, w3, g3, q3⟩ := fetch_reg_inv_run { vm with ip := vm.ip + 2 } hlen b2 h3
  subst e3
  exact ⟨rfl, b3, w1, w2, w3, g1, g2, g3, q1, q2, q3⟩

/-- Two register operands and an immediate decoded one after the other. -/
theorem decode_rri {vm v1 v2 v3 : lab_vm_t} {a b p : Except Undefined Nat}
    (hlen : vm.instructions.length < WORD_MOD) (hip : vm.ip < vm.instructions.length)
    (h1 : fetch_reg vm = .ok (a, v1)) (h2 : fetch_reg v1 = .ok (b, v2))
    (h3 : fetch_imm v2 = .ok (p, v3)) :
    v3 = { vm with ip := vm.ip + 3 } ∧ vm.ip + 2 < vm.instructions.length ∧
      ∃ w1 w2, vm.instructions[vm.ip + 1]? = some w1 ∧
        vm.instructions[vm.ip + 2]? = some w2 ∧
        a = lab_vec_at_stack vm w1 ∧ b = lab_vec_at_stack vm w2 ∧
        p = lab_vec_at_instructions vm (vm.ip + 3) := by
  obtain ⟨e1, b1, w1, g1, q1⟩ := fetch_reg_inv_run vm hlen hip h1
  subst e1
  obtain ⟨e2, b2, w2, g2, q2⟩ := fetch_reg_inv_run { vm with ip := vm.ip + 1 } hlen b1 h2
  subst e2
  have b2 : vm.ip + 2 < vm.instructions.length := b2
  obtain ⟨e3, q3⟩ := fetch_imm_inv_run { vm with ip := vm.ip + 2 } hlen b2 h3
  subst e3
  exact ⟨rfl, b2, w1, w2, g1, g2, q1, q2, q3⟩

/-- One register operand and an immediate decoded one after the other. -/
theorem decode_ri {vm v1 v2 : lab_vm_t} {a p : Except Undefined Nat}
    (hlen : vm.instructions.length < WORD_MOD) (hip : vm.ip < vm.instructions.length)
    (h1 : fetch_reg vm = .ok (a, v1)) (h2 : fetch_imm v1 = .ok (p, v2)) :
    v2 = { vm with ip := vm.ip + 2 } ∧ vm.ip + 1 < vm.instructions.length ∧
      p = lab_vec_at_instructions vm (vm.ip + 2) := by
  obtain ⟨e1, b1, w1, g1, q1⟩ := fetch_reg_inv_run vm hlen hip h1
  subst e1
  obtain ⟨e2, q2⟩ := fetch_imm_inv_run { vm with ip := vm.ip + 1 } hlen b1 h2
  subst e2
  exact ⟨rfl, b1, q2⟩

/-- What a returning call of `lab_vm_eval_op` on a recognised opcode tells, in a state of
the run loop (`ip` inside the instruction stream): it returned `true`; the instruction
stream is as before; the register file is as before or differs in one word; the
register operand words lie inside the stream, and so do all operand words unless the
instruction is a conditional jump; every register operand that is dereferenced is an
aligned byte-offset inside the register file; and a conditional jump that is taken
has its target word inside the stream. -/
theorem eval_ok_inv (vm : lab_vm_t) (op : Nat) (b : Bool) (vm1 : lab_vm_t)
    (hlen : vm.instructions.length < WORD_MOD) (hip : vm.ip < vm.instructions.length)
    (hrec : op % ENUM_MOD ≤ 10) (h : lab_vm_eval_op vm op = .ok (b, vm1)) :
    b = true ∧ vm1.instructions = vm.instructions ∧
      (vm1.stack = vm.stack ∨ ∃ p v, vm1.stack = vm.stack.set p v) ∧
      vm.ip + register_operands op < vm.instructions.length ∧
      (op % ENUM_MOD < LAB_VM_OP_BEQ → vm.ip + operand_words op < vm.instructions.length) ∧
      (∀ k, 1 ≤ k → k ≤ dereferenced_registers op →
        ∃ w, vm.instructions[vm.ip + k]? = some w ∧
          w < WORD_SIZE * vm.stack.length ∧ w % WORD_SIZE = 0) ∧
      (LAB_VM_OP_BEQ ≤ op % ENUM_MOD → ∀ a x, vm.instructions[vm.ip + 1]? = some a →
        vm.instructions[vm.ip + 2]? = some x →
        taken (op % ENUM_MOD) (reg vm a) (reg vm x) →
        vm.ip + 3 < vm.instructions.length) := by
  obtain ⟨e, he⟩ : ∃ e, op % ENUM_MOD = e := ⟨_, rfl⟩
  unfold lab_vm_eval_op at h
  have how : operand_words op = if e = 6 then 2 else 3 := by simp [operand_words, he]
  have hro : register_operands op =
      if e = 6 then 1 else if e = 1 ∨ 7 ≤ e then 2 else 3 := by
    simp [register_operands, he]
  have hdr : dereferenced_registers op =
      if e = 6 then 0 else if e = 1 ∨ 7 ≤ e then 2 else 3 := by
    by_cases h6 : e = 6 <;> simp [dereferenced_registers, register_operands, he, h6]
  rw [how, hro, hdr]
  clear how hro hdr
  rw [he] at hrec ⊢
  simp only [he] at h
  clear he
  interval_cases e
  · rw [if_pos rfl] at h
    cases h1 : fetch_reg vm with
    | error u => rw [h1] at h; simp [bind, Except.bind] at h
    | ok x1 =>
      obtain ⟨p1, v1⟩ := x1
      rw [h1] at h
      simp only [bind, Except.bind] at h
      cases h2 : fetch_reg v1 with
      | error u => rw [h2] at h; simp [bind, Except.bind] at h
      | ok x2 =>
        obtain ⟨p2, v2⟩ := x2
        rw [h2] at h
        simp only [bind, Except.bind] at h
        cases h3 : fetch_reg v2 with
        | error u => rw [h3] at h; simp [bind, Except.bind] at h
        | ok x3 =>
          obtain ⟨p3, v3⟩ := x3
          rw [h3] at h
          simp only [bind, Except.bind] at h
          obtain ⟨ev, hb3, w1, w2, w3, g1, g2, g3, q1, q2, q3⟩ := decode_rrr hlen hip h1 h2 h3
          subst ev q1 q2 q3
          cases ha : lab_vec_at_stack vm w2 with
          | error u => rw [ha] at h; simp [bind, Except.bind] at h
          | ok ia =>
            rw [ha] at h
            simp only [bind, Except.bind] at h
            cases hb : lab_vec_at_stack vm w3 with
            | error u => rw [hb] at h; simp [bind, Except.bind] at h
            | ok ib =>
              rw [hb] at h
              simp only [bind, Except.bind] at h
              cases hd : lab_vec_at_stack vm w1 with
              | error u => rw [hd] at h; simp [bind, Except.bind] at h
              | ok id =>
                rw [hd] at h
                simp only [bind, Except.bind] at h
                simp only [pure, Except.pure, Except.ok.injEq, Prod.mk.injEq] at h
                obtain ⟨hbt, hv⟩ := h
                subst hv
                refine ⟨hbt.symm, rfl, Or.inr ⟨_, _, rfl⟩, hb3, fun _ => hb3, ?_, fun hc => absurd hc (by decide)⟩
                · intro k hk1 hk3
                  have hk3b : k ≤ 3 := hk3
                  interval_cases k
                  · exact ⟨w1, g1, (lab_vec_at_stack_ok hd).1, (lab_vec_at_stack_ok hd).2.1⟩
                  · exact ⟨w2, g2, (lab_vec_at_stack_ok ha).1, (lab_vec_at_stack_ok ha).2.1⟩
                  · exact ⟨w3, g3, (lab_vec_at_stack_ok hb).1, (lab_vec_at_stack_ok hb).2.1⟩
  · rw [if_neg (by decide),
      if_pos rfl] at h
    cases h1 : fetch_reg vm with
    | error u => rw [h1] at h; simp [bind, Except.bind] at h
    | ok x1 =>
      obtain ⟨p1, v1⟩ := x1
      rw [h1] at h
      simp only [bind, Except.bind] at h
      cases h2 : fetch_reg v1 with
      | error u => rw [h2] at h; simp [bind, Except.bind] at h
      | ok x2 =>
        obtain ⟨p2, v2⟩ := x2
        rw [h2] at h
        simp only [bind, Except.bind] at h
        cases h3 : fetch_imm v2 with
        | error u => rw [h3] at h; simp [bind, Except.bind] at h
        | ok x3 =>
          obtain ⟨p3, v3⟩ := x3
          rw [h3] at h
          simp only [bind, Except.bind] at h
          obtain ⟨ev, hb2, w1, w2, g1, g2, q1, q2, q3⟩ := decode_rri hlen hip h1 h2 h3
          subst ev q1 q2 q3
          cases ha : lab_vec_at_stack vm w2 with
          | error u => rw [ha] at h; simp [bind, Except.bind] at h
          | ok ia =>
            rw [ha] at h
            simp only [bind, Except.bind] at h
            cases hb : lab_vec_at_instructions vm (vm.ip + 3) with
            | error u => rw [hb] at h; simp [bind, Except.bind] at h
            | ok ib =>
              rw [hb] at h
              simp only [bind, Except.bind] at h
              cases hd : lab_vec_at_stack vm w1 with
              | error u => rw [hd] at h; simp [bind, Except.bind] at h
              | ok id =>
                rw [hd] at h
                simp only [bind, Except.bind] at h
                simp only [pure, Except.pure, Except.ok.injEq, Prod.mk.injEq] at h
                obtain ⟨hbt, hv⟩ := h
                subst hv
                refine ⟨hbt.symm, rfl, Or.inr ⟨_, _, rfl⟩, hb2, fun _ => (lab_vec_at_instructions_ok hb).1, ?_, fun hc => absurd hc (by decide)⟩
                · intro k hk1 hk3
                  have hk3b : k ≤ 2 := hk3
                  interval_cases k
                  · exact ⟨w1, g1, (lab_vec_at_stack_ok hd).1, (lab_vec_at_stack_ok hd).2.1⟩
                  · exact ⟨w2, g2, (lab_vec_at_stack_ok ha).1, (lab_vec_at_stack_ok ha).2.1⟩
  · rw [if_neg (by decide),
      if_neg (by decide), if_pos rfl] at h
    cases h1 : fetch_reg vm with
    | error u => rw [h1] at h; simp [bind, Except.bind] at h
    | ok x1 =>
      obtain ⟨p1, v1⟩ := x1
      rw [h1] at h
      simp only [bind, Except.bind] at h
      cases h2 : fetch_reg v1 with
      | error u => rw [h2] at h; simp [bind, Except.bind] at h
      | ok x2 =>
        obtain ⟨p2, v2⟩ := x2
        rw [h2] at h
        simp only [bind, Except.bind] at h
        cases h3 : fetch_reg v2 with
        | error u => rw [h3] at h; simp [bind, Except.bind] at h
        | ok x3 =>
          obtain ⟨p3, v3⟩ := x3
          rw [h3] at h
          simp only [bind, Except.bind] at h
          obtain ⟨ev, hb3, w1, w2, w3, g1, g2, g3, q1, q2, q3⟩ := decode_rrr hlen hip h1 h2 h3
          subst ev q1 q2 q3
          cases ha : lab_vec_at_stack vm w2 with
          | error u => rw [ha] at h; simp [bind, Except.bind] at h
          | ok ia =>
            rw [ha] at h
            simp only [bind, Except.bind] at h
            cases hb : lab_vec_at_stack vm w3 with
            | error u => rw [hb] at h; simp [bind, Except.bind] at h
            | ok ib =>
              rw [hb] at h
              simp only [bind, Except.bind] at h
              cases hd : lab_vec_at_stack vm w1 with
              | error u => rw [hd] at h; simp [bind, Except.bind] at h
              | ok id =>
                rw [hd] at h
                simp only [bind, Except.bind] at h
                simp only [pure, Except.pure, Except.ok.injEq, Prod.mk.injEq] at h
                obtain ⟨hbt, hv⟩ := h
                subst hv
                refine ⟨hbt.symm, rfl, Or.inr ⟨_, _, rfl⟩, hb3, fun _ => hb3, ?_, fun hc => absurd hc (by decide)⟩
                · intro k hk1 hk3
                  have hk3b : k ≤ 3 := hk3
                  interval_cases k
                  · exact ⟨w1, g1, (lab_vec_at_stack_ok hd).1, (lab_vec_at_stack_ok hd).2.1⟩
                  · exact ⟨w2, g2, (lab_vec_at_stack_ok ha).1, (lab_vec_at_stack_ok ha).2.1⟩
                  · exact ⟨w3, g3, (lab_vec_at_stack_ok hb).1, (lab_vec_at_stack_ok hb).2.1⟩
  · rw [if_neg (by decide),
      if_neg (by decide), if_neg (by decide), if_pos rfl] at h
    cases h1 : fetch_reg vm with
    | error u => rw [h1] at h; simp [bind, Except.bind] at h
    | ok x1 =>
      obtain ⟨p1, v1⟩ := x1
      rw [h1] at h
      simp only [bind, Except.bind] at h
      cases h2 : fetch_reg v1 with
      | error u => rw [h2] at h; simp [bind, Except.bind] at h
      | ok x2 =>
        obtain ⟨p2, v2⟩ := x2
        rw [h2] at h
        simp only [bind, Except.bind] at h
        cases h3 : fetch_reg v2 with
        | error u => rw [h3] at h; simp [bind, Except.bind] at h
        | ok x3 =>
          obtain ⟨p3, v3⟩ := x3
          rw [h3] at h
          simp only [bind, Except.bind] at h
          obtain ⟨ev, hb3, w1, w2, w3, g1, g2, g3, q1, q2, q3⟩ := decode_rrr hlen hip h1 h2 h3
          subst ev q1 q2 q3
          cases ha : lab_vec_at_stack vm w2 with
          | error u => rw [ha] at h; simp [bind, Except.bind] at h
          | ok ia =>
            rw [ha] at h
            simp only [bind, Except.bind] at h
            cases hb : lab_vec_at_stack vm w3 with
            | error u => rw [hb] at h; simp [bind, Except.bind] at h
            | ok ib =>
              rw [hb] at h
              simp only [bind, Except.bind] at h
              cases hd : lab_vec_at_stack vm w1 with
              | error u => rw [hd] at h; simp [bind, Except.bind] at h
              | ok id =>
                rw [hd] at h
                simp only [bind, Except.bind] at h
                simp only [pure, Except.pure, Except.ok.injEq, Prod.mk.injEq] at h
                obtain ⟨hbt, hv⟩ := h
                subst hv
                refine ⟨hbt.symm, rfl, Or.inr ⟨_, _, rfl⟩, hb3, fun _ => hb3, ?_, fun hc => absurd hc (by decide)⟩
                · intro k hk1 hk3
                  have hk3b : k ≤ 3 := hk3
                  interval_cases k
                  · exact ⟨w1, g1, (lab_vec_at_stack_ok hd).1, (lab_vec_at_stack_ok hd).2.1⟩
                  · exact ⟨w2, g2, (lab_vec_at_stack_ok ha).1, (lab_vec_at_stack_ok ha).2.1⟩
                  · exact ⟨w3, g3, (lab_vec_at_stack_ok hb).1, (lab_vec_at_stack_ok hb).2.1⟩
  · rw [if_neg (by decide),
      if_neg (by decide), if_neg (by decide), if_neg (by decide), if_pos rfl] at h
    cases h1 : fetch_reg vm with
    | error u => rw [h1] at h; simp [bind, Except.bind] at h
    | ok x1 =>
      obtain ⟨p1, v1⟩ := x1
      rw [h1] at h
      simp only [bind, Except.bind] at h
      cases h2 : fetch_reg v1 with
      | error u => rw [h2] at h; simp [bind, Except.bind] at h
      | ok x2 =>
        obtain ⟨p2, v2⟩ := x2
        rw [h2] at h
        simp only [bind, Except.bind] at h
        cases h3 : fetch_reg v2 with
        | error u => rw [h3] at h; simp [bind, Except.bind] at h
        | ok x3 =>
          obtain ⟨p3, v3⟩ := x3
          rw [h3] at h
          simp only [bind, Except.bind] at h
          obtain ⟨ev, hb3, w1, w2, w3, g1, g2, g3, q1, q2, q3⟩ := decode_rrr hlen hip h1 h2 h3
          subst ev q1 q2 q3
          cases ha : lab_vec_at_stack vm w2 with
          | error u => rw [ha] at h; simp [bind, Except.bind] at h
          | ok ia =>
            rw [ha] at h
            simp only [bind, Except.bind] at h
            cases hb : lab_vec_at_stack vm w3 with
            | error u => rw [hb] at h; simp [bind, Except.bind] at h
            | ok ib =>
              rw [hb] at h
              simp only [bind, Except.bind] at h
              split at h
              · simp [throw, throwThe, MonadExceptOf.throw] at h
              · simp only [pure, Except.pure, bind, Except.bind] at h
                cases hd : lab_vec_at_stack vm w1 with
                | error u => rw [hd] at h; simp [bind, Except.bind] at h
                | ok id =>
                  rw [hd] at h
                  simp only [bind, Except.bind] at h
                  simp only [pure, Except.pure, Except.ok.injEq, Prod.mk.injEq] at h
                  obtain ⟨hbt, hv⟩ := h
                  subst hv
                  refine ⟨hbt.symm, rfl, Or.inr ⟨_, _, rfl⟩, hb3, fun _ => hb3, ?_, fun hc => absurd hc (by decide)⟩
                  · intro k hk1 hk3
                    have hk3b : k ≤ 3 := hk3
                    interval_cases k
                    · exact ⟨w1, g1, (lab_vec_at_stack_ok hd).1, (lab_vec_at_stack_ok hd).2.1⟩
                    · exact ⟨w2, g2, (lab_vec_at_stack_ok ha).1, (lab_vec_at_stack_ok ha).2.1⟩
                    · exact ⟨w3, g3, (lab_vec_at_stack_ok hb).1, (lab_vec_at_stack_ok hb).2.1⟩
  · rw [if_neg (by decide),
      if_neg (by decide), if_neg (by decide), if_neg (by decide), if_neg (by decide),
      if_pos rfl] at h
    cases h1 : fetch_reg vm with
    | error u => rw [h1] at h; simp [bind, Except.bind] at h
    | ok x1 =>
      obtain ⟨p1, v1⟩ := x1
      rw [h1] at h
      simp only [bind, Except.bind] at h
      cases h2 : fetch_reg v1 with
      | error u => rw [h2] at h; simp [bind, Except.bind] at h
      | ok x2 =>
        obtain ⟨p2, v2⟩ := x2
        rw [h2] at h
        simp only [bind, Except.bind] at h
        cases h3 : fetch_reg v2 with
        | error u => rw [h3] at h; simp [bind, Except.bind] at h
        | ok x3 =>
          obtain ⟨p3, v3⟩ := x3
          rw [h3] at h
          simp only [bind, Except.bind] at h
          obtain ⟨ev, hb3, w1, w2, w3, g1, g2, g3, q1, q2, q3⟩ := decode_rrr hlen hip h1 h2 h3
          subst ev q1 q2 q3
          cases ha : lab_vec_at_stack vm w2 with
          | error u => rw [ha] at h; simp [bind, Except.bind] at h
          | ok ia =>
            rw [ha] at h
            simp only [bind, Except.bind] at h
            cases hb : lab_vec_at_stack vm w3 with
            | error u => rw [hb] at h; simp [bind, Except.bind] at h
            | ok ib =>
              rw [hb] at h
              simp only [bind, Except.bind] at h
              split at h
              · simp [throw, throwThe, MonadExceptOf.throw] at h
              · simp only [pure, Except.pure, bind, Except.bind] at h
                cases hd : lab_vec_at_stack vm w1 with
                | error u => rw [hd] at h; simp [bind, Except.bind] at h
                | ok id =>
                  rw [hd] at h
                  simp only [bind, Except.bind] at h
                  simp only [pure, Except.pure, Except.ok.injEq, Prod.mk.injEq] at h
                  obtain ⟨hbt, hv⟩ := h
                  subst hv
                  refine ⟨hbt.symm, rfl, Or.inr ⟨_, _, rfl⟩, hb3, fun _ => hb3, ?_, fun hc => absurd hc (by decide)⟩
                  · intro k hk1 hk3
                    have hk3b : k ≤ 3 := hk3
                    interval_cases k
                    · exact ⟨w1, g1, (lab_vec_at_stack_ok hd).1, (lab_vec_at_stack_ok hd).2.1⟩
                    · exact ⟨w2, g2, (lab_vec_at_stack_ok ha).1, (lab_vec_at_stack_ok ha).2.1⟩
                    · exact ⟨w3, g3, (lab_vec_at_stack_ok hb).1, (lab_vec_at_stack_ok hb).2.1⟩
  · rw [if_neg (by decide),
      if_neg (by decide), if_neg (by decide), if_neg (by decide), if_neg (by decide),
      if_neg (by decide), if_pos rfl] at h
    cases h1 : fetch_reg vm with
    | error u => rw [h1] at h; simp [bind, Except.bind] at h
    | ok x1 =>
      obtain ⟨p1, v1⟩ := x1
      rw [h1] at h
      simp only [bind, Except.bind] at h
      cases h2 : fetch_imm v1 with
      | error u => rw [h2] at h; simp [bind, Except.bind] at h
      | ok x2 =>
        obtain ⟨p2, v2⟩ := x2
        rw [h2] at h
        simp only [bind, Except.bind] at h
        obtain ⟨ev, hb1, q2⟩ := decode_ri hlen hip h1 h2
        subst ev q2
        cases hd : lab_vec_at_instructions vm (vm.ip + 2) with
        | error u => rw [hd] at h; simp [bind, Except.bind] at h
        | ok id =>
          rw [hd] at h
          simp only [bind, Except.bind] at h
          simp only [pure, Except.pure, Except.ok.injEq, Prod.mk.injEq] at h
          obtain ⟨hbt, hv⟩ := h
          subst hv
          refine ⟨hbt.symm, rfl, Or.inl rfl, hb1, fun _ => (lab_vec_at_instructions_ok hd).1, ?_, fun hc => absurd hc (by decide)⟩
          · intro k hk1 hk0
            have hk0b : k ≤ 0 := hk0
            omega
  · rw [if_neg (by decide),
      if_neg (by decide), if_neg (by decide), if_neg (by decide), if_neg (by decide),
      if_neg (by decide), if_neg (by decide), if_pos rfl] at h
    cases h1 : fetch_reg vm with
    | error u => rw [h1] at h; simp [bind, Except.bind] at h
    | ok x1 =>
      obtain ⟨p1, v1⟩ := x1
      rw [h1] at h
      simp only [bind, Except.bind] at h
      cases h2 : fetch_reg v1 with
      | error u => rw [h2] at h; simp [bind, Except.bind] at h
      | ok x2 =>
        obtain ⟨p2, v2⟩ := x2
        rw [h2] at h
        simp only [bind, Except.bind] at h
        cases h3 : fetch_imm v2 with
        | error u => rw [h3] at h; simp [bind, Except.bind] at h
        | ok x3 =>
          obtain ⟨p3, v3⟩ := x3
          rw [h3] at h
          simp only [bind, Except.bind] at h
          obtain ⟨ev, hb2, w1, w2, g1, g2, q1, q2, q3⟩ := decode_rri hlen hip h1 h2 h3
          subst ev q1 q2 q3
          cases ha : lab_vec_at_stack vm w1 with
          | error u => rw [ha] at h; simp [bind, Except.bind] at h
          | ok ia =>
            rw [ha] at h
            simp only [bind, Except.bind] at h
            cases hb : lab_vec_at_stack vm w2 with
            | error u => rw [hb] at h; simp [bind, Except.bind] at h
            | ok ib =>
              rw [hb] at h
              simp only [bind, Except.bind] at h
              obtain ⟨-, -, ea⟩ := lab_vec_at_stack_ok ha
              obtain ⟨-, -, eb⟩ := lab_vec_at_stack_ok hb
              split at h
              · simp only [pure, Except.pure, bind, Except.bind] at h
                cases hd : lab_vec_at_instructions vm (vm.ip + 3) with
                | error u => rw [hd] at h; simp [bind, Except.bind] at h
                | ok id =>
                  rw [hd] at h
                  simp only [bind, Except.bind] at h
                  simp only [pure, Except.pure, Except.ok.injEq, Prod.mk.injEq] at h
                  obtain ⟨hbt, hv⟩ := h
                  subst hv
                  refine ⟨hbt.symm, rfl, Or.inl rfl, hb2, fun hc => absurd hc (by decide), ?_, fun _ _ _ _ _ _ => (lab_vec_at_instructions_ok hd).1⟩
                  · intro k hk1 hk3
                    have hk3b : k ≤ 2 := hk3
                    interval_cases k
                    · exact ⟨w1, g1, (lab_vec_at_stack_ok ha).1, (lab_vec_at_stack_ok ha).2.1⟩
                    · exact ⟨w2, g2, (lab_vec_at_stack_ok hb).1, (lab_vec_at_stack_ok hb).2.1⟩
              · rename_i hcond
                simp only [pure, Except.pure, Except.ok.injEq, Prod.mk.injEq] at h
                obtain ⟨hbt, hv⟩ := h
                subst hv
                refine ⟨hbt.symm, rfl, Or.inl rfl, hb2, fun hc => absurd hc (by decide), ?_, ?_⟩
                · intro k hk1 hk3
                  have hk3b : k ≤ 2 := hk3
                  interval_cases k
                  · exact ⟨w1, g1, (lab_vec_at_stack_ok ha).1, (lab_vec_at_stack_ok ha).2.1⟩
                  · exact ⟨w2, g2, (lab_vec_at_stack_ok hb).1, (lab_vec_at_stack_ok hb).2.1⟩
                · intro _ a x hga hgx ht
                  obtain rfl : w1 = a := Option.some.inj (g1.symm.trans hga)
                  obtain rfl : w2 = x := Option.some.inj (g2.symm.trans hgx)
                  subst ea eb
                  exfalso
                  rcases ht with ⟨he, hc⟩ | ⟨he, hc⟩ | ⟨he, hc⟩ | ⟨he, hc⟩ <;>
                    first
                      | exact absurd he (by decide)
                      | exact hcond hc
  · rw [if_neg (by decide),
      if_neg (by decide), if_neg (by decide), if_neg (by decide), if_neg (by decide),
      if_neg (by decide), if_neg (by decide), if_neg (by decide), if_pos rfl] at h
    cases h1 : fetch_reg vm with
    | error u => rw [h1] at h; simp [bind, Except.bind] at h
    | ok x1 =>
      obtain ⟨p1, v1⟩ := x1
      rw [h1] at h
      simp only [bind, Except.bind] at h
      cases h2 : fetch_reg v1 with
      | error u => rw [h2] at h; simp [bind, Except.bind] at h
      | ok x2 =>
        obtain ⟨p2, v2⟩ := x2
        rw [h2] at h
        simp only [bind, Except.bind] at h
        cases h3 : fetch_imm v2 with
        | error u => rw [h3] at h; simp [bind, Except.bind] at h
        | ok x3 =>
          obtain ⟨p3, v3⟩ := x3
          rw [h3] at h
          simp only [bind, Except.bind] at h
          obtain ⟨ev, hb2, w1, w2, g1, g2, q1, q2, q3⟩ := decode_rri hlen hip h1 h2 h3
          subst ev q1 q2 q3
          cases ha : lab_vec_at_stack vm w1 with
          | error u => rw [ha] at h; simp [bind, Except.bind] at h
          | ok ia =>
            rw [ha] at h
            simp only [bind, Except.bind] at h
            cases hb : lab_vec_at_stack vm w2 with
            | error u => rw [hb] at h; simp [bind, Except.bind] at h
            | ok ib =>
              rw [hb] at h
              simp only [bind, Except.bind] at h
              obtain ⟨-, -, ea⟩ := lab_vec_at_stack_ok ha
              obtain ⟨-, -, eb⟩ := lab_vec_at_stack_ok hb
              split at h
              · simp only [pure, Except.pure, bind, Except.bind] at h
                cases hd : lab_vec_at_instructions vm (vm.ip + 3) with
                | error u => rw [hd] at h; simp [bind, Except.bind] at h
                | ok id =>
                  rw [hd] at h
                  simp only [bind, Except.bind] at h
                  simp only [pure, Except.pure, Except.ok.injEq, Prod.mk.injEq] at h
                  obtain ⟨hbt, hv⟩ := h
                  subst hv
                  refine ⟨hbt.symm, rfl, Or.inl rfl, hb2, fun hc => absurd hc (by decide), ?_, fun _ _ _ _ _ _ => (lab_vec_at_instructions_ok hd).1⟩
                  · intro k hk1 hk3
                    have hk3b : k ≤ 2 := hk3
                    interval_cases k
                    · exact ⟨w1, g1, (lab_vec_at_stack_ok ha).1, (lab_vec_at_stack_ok ha).2.1⟩
                    · exact ⟨w2, g2, (lab_vec_at_stack_ok hb).1, (lab_vec_at_stack_ok hb).2.1⟩
              · rename_i hcond
                simp only [pure, Except.pure, Except.ok.injEq, Prod.mk.injEq] at h
                obtain ⟨hbt, hv⟩ := h
                subst hv
                refine ⟨hbt.symm, rfl, Or.inl rfl, hb2, fun hc => absurd hc (by decide), ?_, ?_⟩
                · intro k hk1 hk3
                  have hk3b : k ≤ 2 := hk3
                  interval_cases k
                  · exact ⟨w1, g1, (lab_vec_at_stack_ok ha).1, (lab_vec_at_stack_ok ha).2.1⟩
                  · exact ⟨w2, g2, (lab_vec_at_stack_ok hb).1, (lab_vec_at_stack_ok hb).2.1⟩
                · intro _ a x hga hgx ht
                  obtain rfl : w1 = a := Option.some.inj (g1.symm.trans hga)
                  obtain rfl : w2 = x := Option.some.inj (g2.symm.trans hgx)
                  subst ea eb
                  exfalso
                  rcases ht with ⟨he, hc⟩ | ⟨he, hc⟩ | ⟨he, hc⟩ | ⟨he, hc⟩ <;>
                    first
                      | exact absurd he (by decide)
                      | exact hcond hc
  · rw [if_neg (by decide),
      if_neg (by decide), if_neg (by decide), if_neg (by decide), if_neg (by decide),
      if_neg (by decide), if_neg (by decide), if_neg (by decide), if_neg (by decide),
      if_pos rfl] at h
    cases h1 : fetch_reg vm with
    | error u => rw [h1] at h; simp [bind, Except.bind] at h
    | ok x1 =>
      obtain ⟨p1, v1⟩ := x1
      rw [h1] at h
      simp only [bind, Except.bind] at h
      cases h2 : fetch_reg v1 with
      | error u => rw [h2] at h; simp [bind, Except.bind] at h
      | ok x2 =>
        obtain ⟨p2, v2⟩ := x2
        rw [h2] at h
        simp only [bind, Except.bind] at h
        cases h3 : fetch_imm v2 with
        | error u => rw [h3] at h; simp [bind, Except.bind] at h
        | ok x3 =>
          obtain ⟨p3, v3⟩ := x3
          rw [h3] at h
          simp only [bind, Except.bind] at h
          obtain ⟨ev, hb2, w1, w2, g1, g2, q1, q2, q3⟩ := decode_rri hlen hip h1 h2 h3
          subst ev q1 q2 q3
          cases ha : lab_vec_at_stack vm w1 with
          | error u => rw [ha] at h; simp [bind, Except.bind] at h
          | ok ia =>
            rw [ha] at h
            simp only [bind, Except.bind] at h
            cases hb : lab_vec_at_stack vm w2 with
            | error u => rw [hb] at h; simp [bind, Except.bind] at h
            | ok ib =>
              rw [hb] at h
              simp only [bind, Except.bind] at h
              obtain ⟨-, -, ea⟩ := lab_vec_at_stack_ok ha
              obtain ⟨-, -, eb⟩ := lab_vec_at_stack_ok hb
              split at h
              · simp only [pure, Except.pure, bind, Except.bind] at h
                cases hd : lab_vec_at_instructions vm (vm.ip + 3) with
                | error u => rw [hd] at h; simp [bind, Except.bind] at h
                | ok id =>
                  rw [hd] at h
                  simp only [bind, Except.bind] at h
                  simp only [pure, Except.pure, Except.ok.injEq, Prod.mk.injEq] at h
                  obtain ⟨hbt, hv⟩ := h
                  subst hv
                  refine ⟨hbt.symm, rfl, Or.inl rfl, hb2, fun hc => absurd hc (by decide), ?_, fun _ _ _ _ _ _ => (lab_vec_at_instructions_ok hd).1⟩
                  · intro k hk1 hk3
                    have hk3b : k ≤ 2 := hk3
                    interval_cases k
                    · exact ⟨w1, g1, (lab_vec_at_stack_ok ha).1, (lab_vec_at_stack_ok ha).2.1⟩
                    · exact ⟨w2, g2, (lab_vec_at_stack_ok hb).1, (lab_vec_at_stack_ok hb).2.1⟩
              · rename_i hcond
                simp only [pure, Except.pure, Except.ok.injEq, Prod.mk.injEq] at h
                obtain ⟨hbt, hv⟩ := h
                subst hv
                refine ⟨hbt.symm, rfl, Or.inl rfl, hb2, fun hc => absurd hc (by decide), ?_, ?_⟩
                · intro k hk1 hk3
                  have hk3b : k ≤ 2 := hk3
                  interval_cases k
                  · exact ⟨w1, g1, (lab_vec_at_stack_ok ha).1, (lab_vec_at_stack_ok ha).2.1⟩
                  · exact ⟨w2, g2, (lab_vec_at_stack_ok hb).1, (lab_vec_at_stack_ok hb).2.1⟩
                · intro _ a x hga hgx ht
                  obtain rfl : w1 = a := Option.some.inj (g1.symm.trans hga)
                  obtain rfl : w2 = x := Option.some.inj (g2.symm.trans hgx)
                  subst ea eb
                  exfalso
                  rcases ht with ⟨he, hc⟩ | ⟨he, hc⟩ | ⟨he, hc⟩ | ⟨he, hc⟩ <;>
                    first
                      | exact absurd he (by decide)
                      | exact hcond hc
  · rw [if_neg (by decide),
      if_neg (by decide), if_neg (by decide), if_neg (by decide), if_neg (by decide),
      if_neg (by decide), if_neg (by decide), if_neg (by decide), if_neg (by decide),
      if_neg (by decide), if_pos rfl] at h
    cases h1 : fetch_reg vm with
    | error u => rw [h1] at h; simp [bind, Except.bind] at h
    | ok x1 =>
      obtain ⟨p1, v1⟩ := x1
      rw [h1] at h
      simp only [bind, Except.bind] at h
      cases h2 : fetch_reg v1 with
      | error u => rw [h2] at h; simp [bind, Except.bind] at h
      | ok x2 =>
        obtain ⟨p2, v2⟩ := x2
        rw [h2] at h
        simp only [bind, Except.bind] at h
        cases h3 : fetch_imm v2 with
        | error u => rw [h3] at h; simp [bind, Except.bind] at h
        | ok x3 =>
          obtain ⟨p3, v3⟩ := x3
          rw [h3] at h
          simp only [bind, Except.bind] at h
          obtain ⟨ev, hb2, w1, w2, g1, g2, q1, q2, q3⟩ := decode_rri hlen hip h1 h2 h3
          subst ev q1 q2 q3
          cases ha : lab_vec_at_stack vm w1 with
          | error u => rw [ha] at h; simp [bind, Except.bind] at h
          | ok ia =>
            rw [ha] at h
            simp only [bind, Except.bind] at h
            cases hb : lab_vec_at_stack vm w2 with
            | error u => rw [hb] at h; simp [bind, Except.bind] at h
            | ok ib =>
              rw [hb] at h
              simp only [bind, Except.bind] at h
              obtain ⟨-, -, ea⟩ := lab_vec_at_stack_ok ha
              obtain ⟨-, -, eb⟩ := lab_vec_at_stack_ok hb
              split at h
              · simp only [pure, Except.pure, bind, Except.bind] at h
                cases hd : lab_vec_at_instructions vm (vm.ip + 3) with
                | error u => rw [hd] at h; simp [bind, Except.bind] at h
                | ok id =>
                  rw [hd] at h
                  simp only [bind, Except.bind] at h
                  simp only [pure, Except.pure, Except.ok.injEq, Prod.mk.injEq] at h
                  obtain ⟨hbt, hv⟩ := h
                  subst hv
                  refine ⟨hbt.symm, rfl, Or.inl rfl, hb2, fun hc => absurd hc (by decide), ?_, fun _ _ _ _ _ _ => (lab_vec_at_instructions_ok hd).1⟩
                  · intro k hk1 hk3
                    have hk3b : k ≤ 2 := hk3
                    interval_cases k
                    · exact ⟨w1, g1, (lab_vec_at_stack_ok ha).1, (lab_vec_at_stack_ok ha).2.1⟩
                    · exact ⟨w2, g2, (lab_vec_at_stack_ok hb).1, (lab_vec_at_stack_ok hb).2.1⟩
              · rename_i hcond
                simp only [pure, Except.pure, Except.ok.injEq, Prod.mk.injEq] at h
                obtain ⟨hbt, hv⟩ := h
                subst hv
                refine ⟨hbt.symm, rfl, Or.inl rfl, hb2, fun hc => absurd hc (by decide), ?_, ?_⟩
                · intro k hk1 hk3
                  have hk3b : k ≤ 2 := hk3
                  interval_cases k
                  · exact ⟨w1, g1, (lab_vec_at_stack_ok ha).1, (lab_vec_at_stack_ok ha).2.1⟩
                  · exact ⟨w2, g2, (lab_vec_at_stack_ok hb).1, (lab_vec_at_stack_ok hb).2.1⟩
                · intro _ a x hga hgx ht
                  obtain rfl : w1 = a := Option.some.inj (g1.symm.trans hga)
                  obtain rfl : w2 = x := Option.some.inj (g2.symm.trans hgx)
                  subst ea eb
                  exfalso
                  rcases ht with ⟨he, hc⟩ | ⟨he, hc⟩ | ⟨he, hc⟩ | ⟨he, hc⟩ <;>
                    first
                      | exact absurd he (by decide)
                      | exact hcond hc

/-- A returning call of `lab_vm_eval_op` in a state of the run loop leaves the
instruction stream and the number of register words as they were. -/
theorem eval_frame (vm : lab_vm_t) (op : Nat) (b : Bool) (vm1 : lab_vm_t)
    (hlen : vm.instructions.length < WORD_MOD) (hip : vm.ip < vm.instructions.length)
    (h : lab_vm_eval_op vm op = .ok (b, vm1)) :
    vm1.instructions = vm.instructions ∧ vm1.stack.length = vm.stack.length := by
  by_cases hrec : op % ENUM_MOD ≤ 10
  · obtain ⟨-, hi, hst, -⟩ := eval_ok_inv vm op b vm1 hlen hip hrec h
    refine ⟨hi, ?_⟩
    rcases hst with hst | ⟨p, v, hst⟩
    · rw [hst]
    · rw [hst, List.length_set]
  · rw [eval_default vm op (by omega)] at h
    simp only [Except.ok.injEq, Prod.mk.injEq] at h
    rw [← h.2]
    exact ⟨rfl, rfl⟩

/-- A returning run leaves the instruction stream and the number of register words as
they were. -/
theorem run_loop_frame : ∀ (fuel : Nat) (vm : lab_vm_t) (b : Bool) (vm1 : lab_vm_t),
    vm.instructions.length < WORD_MOD →
    lab_vm_run_loop fuel vm = some (.ok (b, vm1)) →
    vm1.instructions = vm.instructions ∧ vm1.stack.length = vm.stack.length := by
  intro fuel
  induction fuel with
  | zero => intro vm b vm1 _ h; simp [lab_vm_run_loop] at h
  | succ f ih =>
    intro vm b vm1 hlen h
    by_cases hip : vm.ip < vm.instructions.length
    · simp only [lab_vm_run_loop, lab_vec_size_instructions, hip, if_true,
        lab_vec_at_instructions] at h
      cases hev : lab_vm_eval_op vm (load_instruction vm vm.ip) with
      | error u => rw [hev] at h; simp at h
      | ok r =>
        obtain ⟨b2, vm2⟩ := r
        obtain ⟨hi, hst⟩ := eval_frame vm _ b2 vm2 hlen hip hev
        rw [hev] at h
        cases b2 with
        | false =>
          simp only [Option.some.injEq, Except.ok.injEq, Prod.mk.injEq] at h
          rw [← h.2]
          exact ⟨hi, hst⟩
        | true =>
          simp only at h
          obtain ⟨hi2, hst2⟩ := ih vm2 b vm1 (by rw [hi]; exact hlen) h
          exact ⟨hi2.trans hi, hst2.trans hst⟩
    · simp only [lab_vm_run_loop, lab_vec_size_instructions, hip, if_false,
        Option.some.injEq, Except.ok.injEq, Prod.mk.injEq] at h
      rw [← h.2]
      exact ⟨rfl, rfl⟩

theorem holds_at_four (vm : lab_vm_t) (w0 w1 w2 w3 : Nat)
    (h0 : vm.instructions[vm.ip]? = some w0) (h1 : vm.instructions[vm.ip + 1]? = some w1)
    (h2 : vm.instructions[vm.ip + 2]? = some w2) (h3 : vm.instructions[vm.ip + 3]? = some w3) :
    holds_at vm [w0, w1, w2, w3] := by
  unfold holds_at
  apply List.ext_getElem?
  intro k
  simp only [List.length_cons, List.length_nil, List.getElem?_take, List.getElem?_drop]
  rcases k with _ | _ | _ | _ | k
  · simpa using h0
  · simpa using h1
  · simpa using h2
  · simpa using h3
  · simp

theorem holds_at_three (vm : lab_vm_t) (w0 w1 w2 : Nat)
    (h0 : vm.instructions[vm.ip]? = some w0) (h1 : vm.instructions[vm.ip + 1]? = some w1)
    (h2 : vm.instructions[vm.ip + 2]? = some w2) :
    holds_at vm [w0, w1, w2] := by
  unfold holds_at
  apply List.ext_getElem?
  intro k
  simp only [List.length_cons, List.length_nil, List.getElem?_take, List.getElem?_drop]
  rcases k with _ | _ | _ | k
  · simpa using h0
  · simpa using h1
  · simpa using h2
  · simp

theorem getElem?_of_lt (l : List Nat) (i : Nat) (h : i < l.length) : ∃ v, l[i]? = some v :=
  ⟨l[i], List.getElem?_eq_getElem h⟩

/-! ## C19 -/

/-- C19: in a state of the run loop whose instruction at `ip` has a recognised opcode
`w`, all its operand words inside the stream, valid register byte-offsets as register
operands and, for DIV and REM, a non-zero divisor, `lab_vm_eval_op` returns `true`
and changes at most `ip` and one register: the instruction stream is as before, the
register file still holds 32 words, an arithmetic instruction leaves every register
other than its destination as it was, and JAL and the conditional jumps leave the
whole register file as it was.  Hence a `lab_vm_run` that returns has changed neither
the loaded program nor the size of the register file. -/
theorem C19_step_frame (vm : lab_vm_t) (w : Nat) (hwf : vm.WF)
    (hw : vm.instructions[vm.ip]? = some w) (hrec : w ≤ LAB_VM_OP_BGE)
    (hwords : vm.ip + operand_words w < vm.instructions.length)
    (hregs : ∀ k, 1 ≤ k → k ≤ register_operands w →
      ∃ v, vm.instructions[vm.ip + k]? = some v ∧ valid_reg v)
    (hdiv : w = LAB_VM_OP_DIV ∨ w = LAB_VM_OP_REM →
      ∀ v, vm.instructions[vm.ip + 3]? = some v → reg vm v ≠ 0) :
    (∃ vm1, lab_vm_eval_op vm w = .ok (true, vm1) ∧ vm1.instructions = vm.instructions ∧
      vm1.stack.length = 32 ∧
      (w ≤ LAB_VM_OP_REM → ∀ d, vm.instructions[vm.ip + 1]? = some d →
        ∀ r, valid_reg r → r ≠ d → reg vm1 r = reg vm r) ∧
      (LAB_VM_OP_JAL ≤ w → vm1.stack = vm.stack)) ∧
    (∀ fuel b vm2, lab_vm_run fuel vm = some (.ok (b, vm2)) →
      vm2.instructions = vm.instructions ∧ vm2.stack.length = 32) := by
  have hs : vm.stack.length = 32 := hwf.1
  have hlen : vm.instructions.length < WORD_MOD := hwf.2.2.2.1
  constructor
  · have h10 : w ≤ 10 := hrec
    interval_cases w
    · obtain ⟨d, hd, vd⟩ := hregs 1 (by decide) (by decide)
      obtain ⟨a, ha, va⟩ := hregs 2 (by decide) (by decide)
      obtain ⟨x, hx, vx⟩ := hregs 3 (by decide) (by decide)
      have hh := holds_at_four vm _ d a x hw hd ha hx
      have hev := eval_arith vm 0 0 d a x hs hlen (by decide) hh vd va (fun _ => vx)
        (fun hc => hdiv hc x hx)
      refine ⟨_, hev, rfl, by simp [hs], ?_, ?_⟩
      · intro _ d1 hd1 r hr hne
        obtain rfl : d = d1 := Option.some.inj (hd.symm.trans hd1)
        exact reg_set_other vm d r _ vd hr hne _ _
      · intro hc; exact absurd hc (by decide)
    · obtain ⟨d, hd, vd⟩ := hregs 1 (by decide) (by decide)
      obtain ⟨a, ha, va⟩ := hregs 2 (by decide) (by decide)
      obtain ⟨x, hx⟩ := getElem?_of_lt vm.instructions (vm.ip + 3) hwords
      have hh := holds_at_four vm _ d a x hw hd ha hx
      have hev := eval_arith vm 1 1 d a x hs hlen (by decide) hh vd va
        (fun hc => absurd rfl hc) (fun hc => hdiv hc x hx)
      refine ⟨_, hev, rfl, by simp [hs], ?_, ?_⟩
      · intro _ d1 hd1 r hr hne
        obtain rfl : d = d1 := Option.some.inj (hd.symm.trans hd1)
        exact reg_set_other vm d r _ vd hr hne _ _
      · intro hc; exact absurd hc (by decide)
    · obtain ⟨d, hd, vd⟩ := hregs 1 (by decide) (by decide)
      obtain ⟨a, ha, va⟩ := hregs 2 (by decide) (by decide)
      obtain ⟨x, hx, vx⟩ := hregs 3 (by decide) (by decide)
      have hh := holds_at_four vm _ d a x hw hd ha hx
      have hev := eval_arith vm 2 2 d a x hs hlen (by decide) hh vd va (fun _ => vx)
        (fun hc => hdiv hc x hx)
      refine ⟨_, hev, rfl, by simp [hs], ?_, ?_⟩
      · intro _ d1 hd1 r hr hne
        obtain rfl : d = d1 := Option.some.inj (hd.symm.trans hd1)
        exact reg_set_other vm d r _ vd hr hne _ _
      · intro hc; exact absurd hc (by decide)
    · obtain ⟨d, hd, vd⟩ := hregs 1 (by decide) (by decide)
      obtain ⟨a, ha, va⟩ := hregs 2 (by decide) (by decide)
      obtain ⟨x, hx, vx⟩ := hregs 3 (by decide) (by decide)
      have hh := holds_at_four vm _ d a x hw hd ha hx
      have hev := eval_arith vm 3 3 d a x hs hlen (by decide) hh vd va (fun _ => vx)
        (fun hc => hdiv hc x hx)
      refine ⟨_, hev, rfl, by simp [hs], ?_, ?_⟩
      · intro _ d1 hd1 r hr hne
        obtain rfl : d = d1 := Option.some.inj (hd.symm.trans hd1)
        exact reg_set_other vm d r _ vd hr hne _ _
      · intro hc; exact absurd hc (by decide)
    · obtain ⟨d, hd, vd⟩ := hregs 1 (by decide) (by decide)
      obtain ⟨a, ha, va⟩ := hregs 2 (by decide) (by decide)
      obtain ⟨x, hx, vx⟩ := hregs 3 (by decide) (by decide)
      have hh := holds_at_four vm _ d a x hw hd ha hx
      have hev := eval_arith vm 4 4 d a x hs hlen (by decide) hh vd va (fun _ => vx)
        (fun hc => hdiv hc x hx)
      refine ⟨_, hev, rfl, by simp [hs], ?_, ?_⟩
      · intro _ d1 hd1 r hr hne
        obtain rfl : d = d1 := Option.some.inj (hd.symm.trans hd1)
        exact reg_set_other vm d r _ vd hr hne _ _
      · intro hc; exact absurd hc (by decide)
    · obtain ⟨d, hd, vd⟩ := hregs 1 (by decide) (by decide)
      obtain ⟨a, ha, va⟩ := hregs 2 (by decide) (by decide)
      obtain ⟨x, hx, vx⟩ := hregs 3 (by decide) (by decide)
      have hh := holds_at_four vm _ d a x hw hd ha hx
      have hev := eval_arith vm 5 5 d a x hs hlen (by decide) hh vd va (fun _ => vx)
        (fun hc => hdiv hc x hx)
      refine ⟨_, hev, rfl, by simp [hs], ?_, ?_⟩
      · intro _ d1 hd1 r hr hne
        obtain rfl : d = d1 := Option.some.inj (hd.symm.trans hd1)
        exact reg_set_other vm d r _ vd hr hne _ _
      · intro hc; exact absurd hc (by decide)
    · obtain ⟨r, hr, vr⟩ := hregs 1 (by decide) (by decide)
      obtain ⟨t, ht⟩ := getElem?_of_lt vm.instructions (vm.ip + 2) hwords
      have hh := holds_at_three vm _ r t hw hr ht
      refine ⟨_, eval_JAL vm 6 _ r t hs hlen rfl hh vr, rfl, hs, ?_, ?_⟩
      · intro hc; exact absurd hc (by decide)
      · intro _; rfl
    · obtain ⟨a, ha, va⟩ := hregs 1 (by decide) (by decide)
      obtain ⟨x, hx, vx⟩ := hregs 2 (by decide) (by decide)
      obtain ⟨t, ht⟩ := getElem?_of_lt vm.instructions (vm.ip + 3) hwords
      have hh := holds_at_four vm _ a x t hw ha hx ht
      refine ⟨_, eval_BEQ vm _ _ a x t hs hlen rfl hh va vx, rfl, hs, ?_, ?_⟩
      · intro hc; exact absurd hc (by decide)
      · intro _; rfl
    · obtain ⟨a, ha, va⟩ := hregs 1 (by decide) (by decide)
      obtain ⟨x, hx, vx⟩ := hregs 2 (by decide) (by decide)
      obtain ⟨t, ht⟩ := getElem?_of_lt vm.instructions (vm.ip + 3) hwords
      have hh := holds_at_four vm _ a x t hw ha hx ht
      refine ⟨_, eval_BNE vm _ _ a x t hs hlen rfl hh va vx, rfl, hs, ?_, ?_⟩
      · intro hc; exact absurd hc (by decide)
      · intro _; rfl
    · obtain ⟨a, ha, va⟩ := hregs 1 (by decide) (by decide)
      obtain ⟨x, hx, vx⟩ := hregs 2 (by decide) (by decide)
      obtain ⟨t, ht⟩ := getElem?_of_lt vm.instructions (vm.ip + 3) hwords
      have hh := holds_at_four vm _ a x t hw ha hx ht
      refine ⟨_, eval_BLT vm _ _ a x t hs hlen rfl hh va vx, rfl, hs, ?_, ?_⟩
      · intro hc; exact absurd hc (by decide)
      · intro _; rfl
    · obtain ⟨a, ha, va⟩ := hregs 1 (by decide) (by decide)
      obtain ⟨x, hx, vx⟩ := hregs 2 (by decide) (by decide)
      obtain ⟨t, ht⟩ := getElem?_of_lt vm.instructions (vm.ip + 3) hwords
      have hh := holds_at_four vm _ a x t hw ha hx ht
      refine ⟨_, eval_BGE vm _ _ a x t hs hlen rfl hh va vx, rfl, hs, ?_, ?_⟩
      · intro hc; exact absurd hc (by decide)
      · intro _; rfl
  · intro fuel b vm2 h
    have hf := run_loop_frame fuel { vm with ip := 0 } b vm2 hlen h
    exact ⟨hf.1, hf.2.trans hs⟩

/-- C19 at a concrete state: `SUB T0, T0, T1`, whose destination is also a source. -/
theorem C19_step_frame_witness :
    (∃ vm1, lab_vm_eval_op (sample_vm 3 5 [2, 40, 40, 48]) 2 = .ok (true, vm1) ∧
      vm1.instructions = (sample_vm 3 5 [2, 40, 40, 48]).instructions ∧
      vm1.stack.length = 32 ∧
      ((2 : Nat) ≤ LAB_VM_OP_REM →
        ∀ d, (sample_vm 3 5 [2, 40, 40, 48]).instructions[
            (sample_vm 3 5 [2, 40, 40, 48]).ip + 1]? = some d →
          ∀ r, valid_reg r → r ≠ d → reg vm1 r = reg (sample_vm 3 5 [2, 40, 40, 48]) r) ∧
      (LAB_VM_OP_JAL ≤ 2 → vm1.stack = (sample_vm 3 5 [2, 40, 40, 48]).stack)) ∧
    (∀ fuel b vm2, lab_vm_run fuel (sample_vm 3 5 [2, 40, 40, 48]) = some (.ok (b, vm2)) →
      vm2.instructions = (sample_vm 3 5 [2, 40, 40, 48]).instructions ∧
        vm2.stack.length = 32) :=
  C19_step_frame (sample_vm 3 5 [2, 40, 40, 48]) 2
    (sample_vm_WF 3 5 _ (by decide) (by decide) (by decide) (by decide))
    (by decide) (by decide) (by decide)
    (by
      intro k h1 h3
      have h3b : k ≤ 3 := h3
      interval_cases k
      · exact ⟨40, by decide, by decide⟩
      · exact ⟨40, by decide, by decide⟩
      · exact ⟨48, by decide, by decide⟩)
    (by
      intro hc
      rcases hc with hc | hc <;> exact absurd hc (by decide))

/-! ## C15 -/

/-- C15 fails as stated: the truncated program `[ADD, 0]` and the program
`[ADD, 256, 0, 0]` do not make `lab_vm_run` return `false`; the run makes the
out-of-range access, which is undefined. -/
theorem C15_out_of_range_not_reported :
    lab_vm_run 5 (sample_vm 3 5 [0, 0]) = some (.error Undefined.outOfRange) ∧
      lab_vm_run 5 (sample_vm 3 5 [0, 256, 0, 0]) = some (.error Undefined.outOfRange) ∧
      (¬ ∃ vm1, lab_vm_run 5 (sample_vm 3 5 [0, 0]) = some (.ok (false, vm1))) ∧
      (¬ ∃ vm1, lab_vm_run 5 (sample_vm 3 5 [0, 256, 0, 0]) = some (.ok (false, vm1))) := by
  have h1 : lab_vm_run 5 (sample_vm 3 5 [0, 0]) = some (.error Undefined.outOfRange) := rfl
  have h2 : lab_vm_run 5 (sample_vm 3 5 [0, 256, 0, 0]) =
      some (.error Undefined.outOfRange) := rfl
  refine ⟨h1, h2, ?_, ?_⟩
  · rintro ⟨vm1, h⟩
    rw [h1] at h
    exact Except.noConfusion (Option.some.inj h)
  · rintro ⟨vm1, h⟩
    rw [h2] at h
    exact Except.noConfusion (Option.some.inj h)

/-- A pointer that is formed and never dereferenced is harmless: `JAL` with the register
operand 256 returns `true` with `ip` at its target, and a conditional jump that is not
taken returns `true` although its target word is missing from the stream. -/
theorem pointer_only_formed :
    lab_vm_eval_op (sample_vm 3 5 [6, 256, 3]) 6 =
        .ok (true, { stack := sample_stack 3 5, instructions := [6, 256, 3], ip := 3 }) ∧
      lab_vm_eval_op (sample_vm 3 5 [7, 40, 48]) 7 =
        .ok (true, { stack := sample_stack 3 5, instructions := [7, 40, 48], ip := 4 }) := by
  constructor <;> rfl

/-- C15, amended: in a state of the run loop whose instruction at `ip` has a recognised
opcode, the run is not ended with `false` but has an undefined outcome, in
`lab_vm_eval_op` and so in the run loop entered in that state, whenever the
instruction reads or writes out of range, that is when (1) one of its register operand
words is missing from the stream, or (2) it is not a conditional jump and one of its
operand words is missing, or (3) a register operand that it dereferences (any but
JAL's, whose pointer is only formed) is not below the size in bytes of the 32-word
register file, or (4) it is a conditional jump whose condition holds and whose target
word is missing. -/
theorem C15_out_of_range_undefined (vm : lab_vm_t) (op fuel : Nat) (hwf : vm.WF)
    (hop : vm.instructions[vm.ip]? = some op) (hrec : op % ENUM_MOD ≤ LAB_VM_OP_BGE)
    (hbad : vm.instructions.length ≤ vm.ip + register_operands op ∨
      (op % ENUM_MOD < LAB_VM_OP_BEQ ∧ vm.instructions.length ≤ vm.ip + operand_words op) ∨
      (∃ k w, 1 ≤ k ∧ k ≤ dereferenced_registers op ∧
        vm.instructions[vm.ip + k]? = some w ∧ 32 * WORD_SIZE ≤ w) ∨
      (LAB_VM_OP_BEQ ≤ op % ENUM_MOD ∧ vm.instructions.length ≤ vm.ip + 3 ∧
        ∃ a x, vm.instructions[vm.ip + 1]? = some a ∧ vm.instructions[vm.ip + 2]? = some x ∧
          taken (op % ENUM_MOD) (reg vm a) (reg vm x))) :
    ∃ u, lab_vm_eval_op vm op = .error u ∧
      lab_vm_run_loop (fuel + 1) vm = some (.error u) := by
  have hs : vm.stack.length = 32 := hwf.1
  have hlen : vm.instructions.length < WORD_MOD := hwf.2.2.2.1
  have hip : vm.ip < vm.instructions.length := by
    by_contra hc
    rw [List.getElem?_eq_none (by omega)] at hop
    exact Option.noConfusion hop
  cases hev : lab_vm_eval_op vm op with
  | error u => exact ⟨u, rfl, run_loop_undefined fuel vm op u hop hev⟩
  | ok r =>
    exfalso
    obtain ⟨b, vm1⟩ := r
    obtain ⟨-, -, -, hro, hwords, hk, htk⟩ := eval_ok_inv vm op b vm1 hlen hip hrec hev
    rcases hbad with hbad | ⟨hnb, hbad⟩ | ⟨k, w, hk1, hk2, hkw, hbig⟩ | ⟨hbr, hbad, a, x, ha, hx, ht⟩
    · omega
    · have := hwords hnb
      omega
    · obtain ⟨w2, hw2, hlt, -⟩ := hk k hk1 hk2
      obtain rfl : w = w2 := Option.some.inj (hkw.symm.trans hw2)
      rw [hs] at hlt
      simp only [WORD_SIZE] at hlt hbig
      omega
    · have := htk hbr a x ha hx ht
      omega

/-- C15, amended, at a concrete state: `ADD` with the destination operand 256. -/
theorem C15_out_of_range_undefined_witness :
    ∃ u, lab_vm_eval_op (sample_vm 3 5 [0, 256, 0, 0]) 0 = .error u ∧
      lab_vm_run_loop (0 + 1) (sample_vm 3 5 [0, 256, 0, 0]) = some (.error u) :=
  C15_out_of_range_undefined (sample_vm 3 5 [0, 256, 0, 0]) 0 0
    (sample_vm_WF 3 5 _ (by decide) (by decide) (by decide) (by decide))
    (by decide) (by decide)
    (Or.inr (Or.inr (Or.inl ⟨1, 256, by decide, by decide, by decide, by decide⟩)))

/-! ## Well-formed programs -/

/-- The run loop reaches the states `run_state` gives. -/
theorem run_loop_run_state : ∀ (k : Nat) (vm vm1 : lab_vm_t) (fuel : Nat),
    run_state k vm = some vm1 → lab_vm_run_loop (fuel + k) vm = lab_vm_run_loop fuel vm1 := by
  intro k
  induction k with
  | zero =>
    intro vm vm1 fuel h
    simp only [run_state, Option.some.injEq] at h
    rw [h]; rfl
  | succ k ih =>
    intro vm vm1 fuel h
    by_cases hip : vm.ip < vm.instructions.length
    · simp only [run_state, lab_vec_size_instructions, hip, if_true,
        lab_vec_at_instructions] at h
      cases hev : lab_vm_eval_op vm (load_instruction vm vm.ip) with
      | error u => rw [hev] at h; simp at h
      | ok r =>
        obtain ⟨b, vm2⟩ := r
        rw [hev] at h
        cases b with
        | false => simp at h
        | true =>
          simp only at h
          have hw : vm.instructions[vm.ip]? = some (load_instruction vm vm.ip) := by
            simp [load_instruction, List.getD_eq_getElem?_getD, List.getElem?_eq_getElem hip]
          rw [← Nat.add_assoc, run_loop_step (fuel + k) vm vm2 _ hw hev]
          exact ih vm2 vm1 fuel h
    · simp [run_state, lab_vec_size_instructions, hip] at h

theorem start_index_zero (is : List (List Nat)) : start_index is 0 = 0 := by
  simp [start_index]

theorem start_index_length (is : List (List Nat)) :
    start_index is is.length = is.flatten.length := by
  simp [start_index]

theorem start_index_succ (is : List (List Nat)) (j : Nat) (ws : List Nat)
    (h : is[j]? = some ws) : start_index is (j + 1) = start_index is j + ws.length := by
  simp [start_index, List.take_succ, h, List.flatten_append, List.length_append]

theorem flatten_split (is : List (List Nat)) (j : Nat) (ws : List Nat)
    (h : is[j]? = some ws) :
    is.flatten = (is.take j).flatten ++ (ws ++ (is.drop (j + 1)).flatten) := by
  obtain ⟨hlt, rfl⟩ := List.getElem?_eq_some.mp h
  have e : is.take j ++ is[j] :: is.drop (j + 1) = is := by
    rw [← List.drop_eq_getElem_cons hlt, List.take_append_drop]
  have e2 := congrArg List.flatten e
  rw [List.flatten_append, List.flatten_cons] at e2
  exact e2.symm

theorem start_index_lt (is : List (List Nat)) (j : Nat) (hj : j ≤ is.length)
    (h : start_index is j < is.flatten.length) : j < is.length := by
  by_contra hc
  have : j = is.length := by omega
  rw [this, start_index_length] at h
  omega

/-- The words of instruction number `j` are in the program from its start index on. -/
theorem holds_at_instruction (is : List (List Nat)) (s : List Nat) (j : Nat) (ws : List Nat)
    (h : is[j]? = some ws) :
    holds_at { stack := s, instructions := is.flatten, ip := start_index is j } ws := by
  unfold holds_at
  simp only
  rw [flatten_split is j ws h]
  have e1 : List.drop (start_index is j)
      ((List.take j is).flatten ++ (ws ++ (List.drop (j + 1) is).flatten)) =
      ws ++ (List.drop (j + 1) is).flatten := List.drop_left' rfl
  rw [e1]
  exact List.take_left' rfl
/-- One iteration of the run loop on a well-formed program, from a state whose `ip` is
the start index of an instruction: the instruction returns `true` and leaves `ip`
at a start index or at the program length, unless it is a division by zero. -/
theorem well_formed_step (is : List (List Nat)) (hwf : well_formed_program is)
    (hlen : is.flatten.length < WORD_MOD) (s : List Nat) (hs : s.length = 32) (j : Nat)
    (hj : j ≤ is.length) (hlt : start_index is j < is.flatten.length) :
    ∃ w, is.flatten[start_index is j]? = some w ∧
      ((∃ vm1,
          lab_vm_eval_op { stack := s, instructions := is.flatten, ip := start_index is j } w =
            .ok (true, vm1) ∧
          vm1.instructions = is.flatten ∧ vm1.stack.length = 32 ∧
          ∃ j1, j1 ≤ is.length ∧ vm1.ip = start_index is j1) ∨
        lab_vm_eval_op { stack := s, instructions := is.flatten, ip := start_index is j } w =
          .error Undefined.divisionByZero) := by
  have hjlt : j < is.length := start_index_lt is j hj hlt
  obtain ⟨ws, hws⟩ : ∃ ws, is[j]? = some ws := ⟨is[j], List.getElem?_eq_getElem hjlt⟩
  have hmem : ws ∈ is := List.getElem?_mem hws
  have hh := holds_at_instruction is s j ws hws
  have hnext := start_index_succ is j ws hws
  have hs1 : ∀ p v, (s.set p v).length = 32 := by
    intro p v; rw [List.length_set]; exact hs
  rcases hwf.1 ws hmem with ⟨op, d, a, b, rfl, hop, hd, ha, hb⟩ | ⟨d, a, imm, rfl, hd, ha⟩ |
    ⟨r, t, rfl, hr⟩ | ⟨op, a, b, t, rfl, hop, ha, hb⟩
  · refine ⟨op, by simpa using holds_at_get hh 0 (by simp), ?_⟩
    have hop5 : op ≤ LAB_VM_OP_REM := by
      rcases hop with rfl | rfl | rfl | rfl | rfl <;> decide
    have hne1 : op ≠ LAB_VM_OP_ADDI := by
      rcases hop with rfl | rfl | rfl | rfl | rfl <;> decide
    by_cases hz : (op = LAB_VM_OP_DIV ∨ op = LAB_VM_OP_REM) ∧
        reg { stack := s, instructions := is.flatten, ip := start_index is j } b = 0
    · right
      rcases hz with ⟨rfl | rfl, hz⟩
      · exact eval_DIV_zero _ _ _ d a b hs hlen rfl hh hd ha hb hz
      · exact eval_REM_zero _ _ _ d a b hs hlen rfl hh hd ha hb hz
    · left
      refine ⟨_, eval_arith _ op op d a b hs hlen hop5 hh hd ha (fun _ => hb) ?_, rfl,
        hs1 _ _, j + 1, hjlt, ?_⟩
      · intro hc hz2
        exact hz ⟨hc, hz2⟩
      · simp only [hnext, List.length_cons, List.length_nil]
  · refine ⟨LAB_VM_OP_ADDI, by simpa using holds_at_get hh 0 (by simp), Or.inl ?_⟩
    refine ⟨_, eval_arith _ LAB_VM_OP_ADDI _ d a imm hs hlen (by decide) hh hd ha
      (fun hc => absurd rfl hc) ?_, rfl, hs1 _ _, j + 1, hjlt, ?_⟩
    · intro hc
      rcases hc with hc | hc <;> exact absurd hc (by decide)
    · simp only [hnext, List.length_cons, List.length_nil]
  · refine ⟨LAB_VM_OP_JAL, by simpa using holds_at_get hh 0 (by simp), Or.inl ?_⟩
    obtain ⟨j1, hj1, ht⟩ := hwf.2 _ hmem t (by simp [jump_target])
    exact ⟨_, eval_JAL _ LAB_VM_OP_JAL _ r t hs hlen rfl hh hr, rfl, hs, j1, hj1, ht⟩
  · refine ⟨op, by simpa using holds_at_get hh 0 (by simp), Or.inl ?_⟩
    have htgt : jump_target [op, a, b, t] = some t := by
      rcases hop with rfl | rfl | rfl | rfl <;> rfl
    obtain ⟨j1, hj1, ht⟩ := hwf.2 _ hmem t htgt
    have hfall : start_index is j + 4 = start_index is (j + 1) := by
      simp only [hnext, List.length_cons, List.length_nil]
    rcases hop with rfl | rfl | rfl | rfl
    · refine ⟨_, eval_BEQ _ _ _ a b t hs hlen rfl hh ha hb, rfl, hs, ?_⟩
      split
      · exact ⟨j1, hj1, ht⟩
      · exact ⟨j + 1, hjlt, hfall⟩
    · refine ⟨_, eval_BNE _ _ _ a b t hs hlen rfl hh ha hb, rfl, hs, ?_⟩
      split
      · exact ⟨j1, hj1, ht⟩
      · exact ⟨j + 1, hjlt, hfall⟩
    · refine ⟨_, eval_BLT _ _ _ a b t hs hlen rfl hh ha hb, rfl, hs, ?_⟩
      split
      · exact ⟨j1, hj1, ht⟩
      · exact ⟨j + 1, hjlt, hfall⟩
    · refine ⟨_, eval_BGE _ _ _ a b t hs hlen rfl hh ha hb, rfl, hs, ?_⟩
      split
      · exact ⟨j1, hj1, ht⟩
      · exact ⟨j + 1, hjlt, hfall⟩

/-- The states the run loop reaches on a well-formed program have `ip` at the start index
of an instruction or at the program length. -/
theorem well_formed_reach (is : List (List Nat)) (hwf : well_formed_program is)
    (hlen : is.flatten.length < WORD_MOD) :
    ∀ (k : Nat) (vm vm1 : lab_vm_t), vm.instructions = is.flatten → vm.stack.length = 32 →
      (∃ j, j ≤ is.length ∧ vm.ip = start_index is j) → run_state k vm = some vm1 →
      vm1.instructions = is.flatten ∧ vm1.stack.length = 32 ∧
        ∃ j, j ≤ is.length ∧ vm1.ip = start_index is j := by
  intro k
  induction k with
  | zero =>
    intro vm vm1 hi hs hj h
    simp only [run_state, Option.some.injEq] at h
    subst h
    exact ⟨hi, hs, hj⟩
  | succ k ih =>
    intro vm vm1 hi hs hj h
    obtain ⟨s, ins, ip⟩ := vm
    simp only at hi hs
    subst hi
    obtain ⟨j, hj, hip⟩ := hj
    simp only at hip
    subst hip
    by_cases hlt : start_index is j < is.flatten.length
    · obtain ⟨w, hw, hstep⟩ := well_formed_step is hwf hlen s hs j hj hlt
      have hload : load_instruction
          { stack := s, instructions := is.flatten, ip := start_index is j }
          (start_index is j) = w := by
        simp [load_instruction, List.getD_eq_getElem?_getD, hw]
      simp only [run_state, lab_vec_size_instructions, hlt, if_true,
        lab_vec_at_instructions, hload] at h
      rcases hstep with ⟨vm2, hev, hi2, hs2, hj2⟩ | hev
      · rw [hev] at h
        exact ih vm2 vm1 hi2 hs2 hj2 h
      · rw [hev] at h
        simp at h
    · simp only [run_state, lab_vec_size_instructions, hlt, if_false] at h
      exact Option.noConfusion h
/-- The program of `main`, instruction by instruction, is well formed. -/
theorem main_program_well_formed : well_formed_program main_instructions := by
  constructor
  · intro ws hws
    simp only [main_instructions, List.mem_cons, List.mem_singleton, List.mem_nil_iff,
      or_false] at hws
    rcases hws with rfl | rfl | rfl
    · exact Or.inr (Or.inl ⟨80, 0, 15, rfl, by decide, by decide⟩)
    · exact Or.inr (Or.inl ⟨88, 88, 1, rfl, by decide, by decide⟩)
    · exact Or.inr (Or.inr (Or.inr ⟨9, 88, 80, 4, rfl, by decide, by decide, by decide⟩))
  · intro ws hws t ht
    simp only [main_instructions, List.mem_cons, List.mem_singleton, List.mem_nil_iff,
      or_false] at hws
    rcases hws with rfl | rfl | rfl
    · simp [jump_target] at ht
    · simp [jump_target] at ht
    · have ht2 : some 4 = some t := ht
      obtain rfl : 4 = t := Option.some.inj ht2
      exact ⟨1, by decide, rfl⟩

/-! ## C16 -/

/-- C16: for a well-formed program and any register file of 32 words, every state the
loop of `lab_vm_run` is in after `k` instructions that returned `true` has `ip` at the
start index of an instruction or at the program length, with the program and the size
of the register file as they were; and if the loop goes on from there, the opcode
fetch, the operand fetches and the register accesses of the next instruction are in
bounds: it returns `true`, or it is a division by zero. -/
theorem C16_ip_at_instruction_start (is : List (List Nat)) (s : List Nat) (k : Nat)
    (vm : lab_vm_t) (hs : s.length = 32) (hwf : well_formed_program is)
    (hlen : is.flatten.length < WORD_MOD)
    (h : run_state k { stack := s, instructions := is.flatten, ip := 0 } = some vm) :
    (∃ j, j ≤ is.length ∧ vm.ip = start_index is j) ∧
      vm.instructions = is.flatten ∧ vm.stack.length = 32 ∧
      (∀ fuel, lab_vm_run_loop (fuel + k) { stack := s, instructions := is.flatten, ip := 0 } =
        lab_vm_run_loop fuel vm) ∧
      (vm.ip < vm.instructions.length →
        ∃ w, vm.instructions[vm.ip]? = some w ∧
          ((∃ vm1, lab_vm_eval_op vm w = .ok (true, vm1)) ∨
            lab_vm_eval_op vm w = .error Undefined.divisionByZero)) := by
  obtain ⟨hi, hs1, j, hj, hip⟩ := well_formed_reach is hwf hlen k
    { stack := s, instructions := is.flatten, ip := 0 } vm rfl hs
    ⟨0, Nat.zero_le _, (start_index_zero is).symm⟩ h
  refine ⟨⟨j, hj, hip⟩, hi, hs1, fun fuel => run_loop_run_state k _ vm fuel h, ?_⟩
  intro hlt
  obtain ⟨s1, ins, ip⟩ := vm
  simp only at hi hs1 hip hlt
  subst hi
  subst hip
  obtain ⟨w, hw, hstep⟩ := well_formed_step is hwf hlen s1 hs1 j hj hlt
  refine ⟨w, hw, ?_⟩
  rcases hstep with ⟨vm1, hev, -⟩ | hev
  · exact Or.inl ⟨vm1, hev⟩
  · exact Or.inr hev

/-- C16 at the program of `main` on fresh registers: after the two ADDI and the taken
BLT, `ip` is 4, the start index of the second instruction. -/
theorem C16_ip_at_instruction_start_witness :
    (∃ j, j ≤ main_instructions.length ∧ main_after_three.ip = start_index main_instructions j) ∧
      main_after_three.instructions = main_instructions.flatten ∧
      main_after_three.stack.length = 32 ∧
      (∀ fuel, lab_vm_run_loop (fuel + 3)
          { stack := fresh.stack, instructions := main_instructions.flatten, ip := 0 } =
        lab_vm_run_loop fuel main_after_three) ∧
      (main_after_three.ip < main_after_three.instructions.length →
        ∃ w, main_after_three.instructions[main_after_three.ip]? = some w ∧
          ((∃ vm1, lab_vm_eval_op main_after_three w = .ok (true, vm1)) ∨
            lab_vm_eval_op main_after_three w = .error Undefined.divisionByZero)) :=
  C16_ip_at_instruction_start main_instructions fresh.stack 3 main_after_three (by decide)
    main_program_well_formed (by decide) rfl

end LabVM
